import Mathlib

/-!
# mini-app-sdk — verification of the request/response correlation layer

Shallow embedding of the SDK's source (`src/functions.ts`, `src/utils.ts`,
`src/types.ts`) in Lean 4.

* JavaScript runtime values exchanged over the bridge are modelled by the
  mutual inductive family `JSValue` / `JSList` / `JSFields` (JSON-style trees
  extended with `undef` for `undefined` and `bigint` for arbitrary-precision
  integers; a non-integer JS number is carried abstractly as its decimal
  literal by the `dbl` constructor).
* The platform primitives `JSON.stringify` / `JSON.parse` are modelled by an
  executable encoder `encVal` and a fuel-indexed recursive-descent parser
  `pVal`, on the whitespace-free fragment that `JSON.stringify` emits, with
  integer-valued number literals (the wire format used by the SDK carries
  integers and strings; the model rejects fractional literals).
* `convertToString` and `stringifyMessage` are translated from
  `src/utils.ts`; `isWebView`, `sendMessageToApp`, `waitForResponse` and the
  four facades are translated from `src/functions.ts`.  The event-callback
  code of `waitForResponse` becomes a state machine on `Pending` with step
  functions `handleMessage` (the `message` listener) and `fireTimeout` (the
  `setTimeout` callback); a run delivers a finite list of time-stamped
  inbound events in order and finally lets the timer fire.
-/

set_option maxHeartbeats 1000000

namespace MiniAppSdk

/-! ## JavaScript values -/

mutual

/-- A JavaScript runtime value as exchanged with `JSON.stringify` /
`JSON.parse`: `null`, `undefined`, booleans, integer-valued numbers (`num`),
non-integer numbers carried as their decimal literal (`dbl`), strings,
arbitrary-precision `BigInt`s, arrays and plain objects. -/
inductive JSValue where
  | null : JSValue
  | undef : JSValue
  | bool (b : Bool) : JSValue
  | num (n : Int) : JSValue
  | dbl (lit : String) : JSValue
  | str (s : String) : JSValue
  | bigint (i : Int) : JSValue
  | arr (elems : JSList) : JSValue
  | obj (fields : JSFields) : JSValue

/-- A JavaScript array's element list. -/
inductive JSList where
  | nil : JSList
  | cons (hd : JSValue) (tl : JSList) : JSList

/-- A JavaScript object's ordered field list (string key, value). -/
inductive JSFields where
  | nil : JSFields
  | cons (key : String) (val : JSValue) (tl : JSFields) : JSFields

end

/-- Property lookup on an object's field list, with the JS `JSON.parse`
semantics for duplicate keys: the last occurrence wins. -/
def lookupField : JSFields → String → Option JSValue
  | .nil, _ => none
  | .cons k v fs, key =>
    match lookupField fs key with
    | some r => some r
    | none => if k = key then some v else none

/-- Property access `v[k]` for a parsed JSON value: field lookup on objects, `undefined`
(modelled as `none`) on every other value. -/
def getField : JSValue → String → Option JSValue
  | .obj fs, k => lookupField fs k
  | _, _ => none

/-- The comparison `response.action === expectedAction` from the listener of `waitForResponse`:
true exactly when the value is an object whose `action` field is the string
`expected`. -/
def actionMatches (v : JSValue) (expected : String) : Bool :=
  match getField v "action" with
  | some (.str a) => a = expected
  | _ => false

mutual

/-- No `undefined` anywhere in the value. -/
def noUndef : JSValue → Bool
  | .undef => false
  | .arr xs => noUndefL xs
  | .obj fs => noUndefF fs
  | _ => true

/-- No `undefined` in any element of the list. -/
def noUndefL : JSList → Bool
  | .nil => true
  | .cons x xs => noUndef x && noUndefL xs

/-- No `undefined` in any field value. -/
def noUndefF : JSFields → Bool
  | .nil => true
  | .cons _ v fs => noUndef v && noUndefF fs

end

mutual

/-- No `BigInt` anywhere in the value. -/
def noBig : JSValue → Bool
  | .bigint _ => false
  | .arr xs => noBigL xs
  | .obj fs => noBigF fs
  | _ => true

/-- No `BigInt` in any element of the list. -/
def noBigL : JSList → Bool
  | .nil => true
  | .cons x xs => noBig x && noBigL xs

/-- No `BigInt` in any field value. -/
def noBigF : JSFields → Bool
  | .nil => true
  | .cons _ v fs => noBig v && noBigF fs

end

mutual

/-- No non-integer number literal anywhere in the value (the parser model is
integer-only, so the round-trip theorem is stated on this fragment). -/
def noDbl : JSValue → Bool
  | .dbl _ => false
  | .arr xs => noDblL xs
  | .obj fs => noDblF fs
  | _ => true

/-- No non-integer number literal in any element. -/
def noDblL : JSList → Bool
  | .nil => true
  | .cons x xs => noDbl x && noDblL xs

/-- No non-integer number literal in any field value. -/
def noDblF : JSFields → Bool
  | .nil => true
  | .cons _ v fs => noDbl v && noDblF fs

end

/-! ## Decimal digits -/

/-- Decimal digit character for `d < 10`. -/
def digitChar (d : Nat) : Char := Char.ofNat (48 + d)

/-- Fuel-indexed digit accumulator: `fuel` bounds the number of digits, so
the recursion is structural and computes definitionally. -/
def natDigitsAux : Nat → Nat → List Char
  | 0, n => [digitChar n]
  | fuel + 1, n =>
    if n < 10 then [digitChar n]
    else natDigitsAux fuel (n / 10) ++ [digitChar (n % 10)]

/-- The decimal digit string of a natural number, most significant digit
first (model of JavaScript's number / `BigInt` decimal printing). -/
def natDigits (n : Nat) : List Char := natDigitsAux n n

/-- Decimal characters of an integer (model of `BigInt.prototype.toString`
and of the `JSON.stringify` printing of integer-valued numbers). -/
def intChars (i : Int) : List Char :=
  if i < 0 then '-' :: natDigits i.natAbs else natDigits i.natAbs

/-- The exact decimal string of an integer. -/
def intDecimal (i : Int) : String := ⟨intChars i⟩

/-- Is `c` a decimal digit? -/
def isDigitCh (c : Char) : Bool := 48 ≤ c.toNat && c.toNat ≤ 57

/-- Numeric value of the digit characters `ds`, most significant first. -/
def digitsToNat (ds : List Char) : Nat :=
  ds.foldl (fun a c => 10 * a + (c.toNat - 48)) 0

/-- Is the head of the input (if any) a decimal digit?  False head means a
number literal just before this input cannot extend into it. -/
def headNotDigit (cs : List Char) : Bool :=
  match cs with
  | [] => true
  | c :: _ => !isDigitCh c

/-- Semantic decoding of an exact decimal string (optional sign, then at
least one digit, nothing else). -/
def decodeDecimal (s : String) : Option Int :=
  match s.data with
  | [] => none
  | c :: cs =>
    if c = '-' then
      if cs ≠ [] ∧ cs.all isDigitCh then some (-(digitsToNat cs : Int)) else none
    else
      if (c :: cs).all isDigitCh then some ((digitsToNat (c :: cs) : Int)) else none

/-! ## `convertToString` (src/utils.ts) -/

mutual

/-- Translation of `convertToString` from `src/utils.ts`: recursively rewrites every
`BigInt` into its exact decimal string, maps arrays and objects pointwise,
and returns every other value unchanged. -/
def convertToString : JSValue → JSValue
  | .bigint i => .str (intDecimal i)
  | .arr xs => .arr (convertList xs)
  | .obj fs => .obj (convertFields fs)
  | v => v

/-- Pointwise `value.map(convertToString)` on an array. -/
def convertList : JSList → JSList
  | .nil => .nil
  | .cons x xs => .cons (convertToString x) (convertList xs)

/-- The `Object.entries` fold of `convertToString` on an object. -/
def convertFields : JSFields → JSFields
  | .nil => .nil
  | .cons k v fs => .cons k (convertToString v) (convertFields fs)

end

/-! ## `JSON.stringify` model -/

/-- The escape sequence of a character inside a JSON string literal:
`"` and `\` are backslash-escaped, everything else is emitted verbatim. -/
def escapeChar (c : Char) : List Char :=
  if c = '"' then ['\\', '"']
  else if c = '\\' then ['\\', '\\']
  else [c]

/-- Escape every character of a string body. -/
def escapeList : List Char → List Char
  | [] => []
  | c :: cs => escapeChar c ++ escapeList cs

/-- A quoted JSON string literal. -/
def encStrChars (s : String) : List Char :=
  '"' :: escapeList s.data ++ ['"']

/-- Join pre-encoded members with commas. -/
def joinComma : List (List Char) → List Char
  | [] => []
  | [x] => x
  | x :: xs => x ++ ',' :: joinComma xs

/-- Is this value the JavaScript `undefined`? -/
def isUndef : JSValue → Bool
  | .undef => true
  | _ => false

mutual

/-- Model of `JSON.stringify` (without a replacer), modelled on the whitespace-free
text it emits: `none` models a result of `undefined` (top-level `undefined`)
or a thrown `TypeError` (a `BigInt` reached the structural encoder).
`undefined` array elements encode as `null`; `undefined` object fields are
dropped. -/
def encVal : JSValue → Option (List Char)
  | .null => some "null".data
  | .undef => none
  | .bool b => some (cond b "true".data "false".data)
  | .num i => some (intChars i)
  | .dbl lit => some lit.data
  | .str s => some (encStrChars s)
  | .bigint _ => none
  | .arr .nil => some ['[', ']']
  | .arr (.cons x xs) =>
    match encElems (.cons x xs) with
    | some body => some ('[' :: body ++ [']'])
    | none => none
  | .obj fs =>
    match encFields fs with
    | some parts => some ('{' :: joinComma parts ++ ['}'])
    | none => none

/-- Comma-joined encodings of the elements of a (nonempty) array;
an `undefined` element encodes as `null`. -/
def encElems : JSList → Option (List Char)
  | .nil => some []
  | .cons x .nil =>
    if isUndef x then some "null".data else encVal x
  | .cons x (.cons y ys) => do
    let a ← if isUndef x then some "null".data else encVal x
    let b ← encElems (.cons y ys)
    some (a ++ ',' :: b)

/-- Encodings of an object's members (`"key":value`), in order, with
`undefined`-valued fields dropped. -/
def encFields : JSFields → Option (List (List Char))
  | .nil => some []
  | .cons k v fs =>
    if isUndef v then encFields fs
    else do
      let sv ← encVal v
      let rest ← encFields fs
      some ((encStrChars k ++ ':' :: sv) :: rest)

end

/-- Translation of `stringifyMessage` from `src/utils.ts`:
`JSON.stringify(message, (_key, value) => convertToString(value))`.
Applying the recursive `convertToString` as a replacer fully rewrites the
tree before structural encoding, so it is the composition of the rewrite
with the plain encoder. -/
def stringifyMessage (v : JSValue) : Option String :=
  match encVal (convertToString v) with
  | some cs => some ⟨cs⟩
  | none => none

/-! ## `JSON.parse` model -/

/-- Parse the body of a JSON string literal (opening quote already consumed):
returns the unescaped content characters and the remaining input. -/
def pStringChars : List Char → Option (List Char × List Char)
  | [] => none
  | c :: cs =>
    if c = '"' then some ([], cs)
    else if c = '\\' then
      match cs with
      | [] => none
      | e :: cs' =>
        let d : Option Char :=
          if e = '"' then some '"'
          else if e = '\\' then some '\\'
          else if e = '/' then some '/'
          else if e = 'n' then some '\n'
          else if e = 't' then some '\t'
          else if e = 'r' then some '\r'
          else none
        match d with
        | some dc =>
          match pStringChars cs' with
          | some (body, rest) => some (dc :: body, rest)
          | none => none
        | none => none
    else
      match pStringChars cs with
      | some (body, rest) => some (c :: body, rest)
      | none => none

mutual

/-- Recursive-descent model of `JSON.parse` on the whitespace-free fragment
emitted by `JSON.stringify`, with integer number literals.  The fuel
argument bounds the recursion depth; `jsonParse` supplies enough fuel for
any input it accepts.  Returns the parsed value and the unconsumed input. -/
def pVal : Nat → List Char → Option (JSValue × List Char)
  | 0, _ => none
  | _ + 1, [] => none
  | f + 1, c :: cs =>
    if c = 'n' then
      if cs.take 3 = ['u', 'l', 'l'] then some (.null, cs.drop 3) else none
    else if c = 't' then
      if cs.take 3 = ['r', 'u', 'e'] then some (.bool true, cs.drop 3) else none
    else if c = 'f' then
      if cs.take 4 = ['a', 'l', 's', 'e'] then some (.bool false, cs.drop 4) else none
    else if c = '"' then
      match pStringChars cs with
      | some br => some (.str ⟨br.1⟩, br.2)
      | none => none
    else if c = '[' then
      if cs.take 1 = [']'] then some (.arr .nil, cs.drop 1)
      else
        match pElems f cs with
        | some xr => some (.arr xr.1, xr.2)
        | none => none
    else if c = '{' then
      if cs.take 1 = ['}'] then some (.obj .nil, cs.drop 1)
      else
        match pFields f cs with
        | some fr => some (.obj fr.1, fr.2)
        | none => none
    else if c = '-' then
      if headNotDigit cs then none
      else some (.num (-(digitsToNat (cs.takeWhile isDigitCh) : Int)), cs.dropWhile isDigitCh)
    else if isDigitCh c then
      some (.num ((digitsToNat ((c :: cs).takeWhile isDigitCh) : Int)),
        (c :: cs).dropWhile isDigitCh)
    else none

/-- Parse the elements of a nonempty array (opening bracket consumed, at
least one element present), up to and including the closing bracket. -/
def pElems : Nat → List Char → Option (JSList × List Char)
  | 0, _ => none
  | f + 1, cs =>
    match pVal f cs with
    | some vr =>
      if vr.2.take 1 = [','] then
        match pElems f (vr.2.drop 1) with
        | some xr => some (.cons vr.1 xr.1, xr.2)
        | none => none
      else if vr.2.take 1 = [']'] then some (.cons vr.1 .nil, vr.2.drop 1)
      else none
    | none => none

/-- Parse the members of a nonempty object (opening brace consumed, at least
one member present), up to and including the closing brace. -/
def pFields : Nat → List Char → Option (JSFields × List Char)
  | 0, _ => none
  | f + 1, cs =>
    if cs.take 1 = ['"'] then
      match pStringChars (cs.drop 1) with
      | some kr =>
        if kr.2.take 1 = [':'] then
          match pVal f (kr.2.drop 1) with
          | some vr =>
            if vr.2.take 1 = [','] then
              match pFields f (vr.2.drop 1) with
              | some fr => some (.cons ⟨kr.1⟩ vr.1 fr.1, fr.2)
              | none => none
            else if vr.2.take 1 = ['}'] then some (.cons ⟨kr.1⟩ vr.1 .nil, vr.2.drop 1)
            else none
          | none => none
        else none
      | none => none
    else none

end

/-- Model of `JSON.parse`: parse a complete value, requiring the whole input to
be consumed. -/
def jsonParse (s : String) : Option JSValue :=
  match pVal (s.length + 1) s.data with
  | some (v, []) => some v
  | _ => none

/-! ## Environment probe (src/functions.ts, `isWebView`) -/

/-- The browser global scope, with the three host-detection signals read by
`isWebView`: the `window.ReactNativeWebView` bridge object (modelled by its
presence), `window.navigator.userAgent`, and the class list of
`document.documentElement`. -/
structure Win where
  reactNativeWebView : Bool
  userAgent : String
  docClasses : List String

/-- The ambient environment: `window` is absent in a non-browser context. -/
structure Env where
  window : Option Win

/-- Model of `String.prototype.includes`: does `hay` contain `needle` as a
substring? -/
def hasSubstr (hay needle : String) : Bool :=
  hay.data.tails.any fun t => needle.data.isPrefixOf t

/-- Translation of `isWebView` from `src/functions.ts`: true when `window` exists and the
bridge object is present, or the user agent contains
`"ReactNativeWebView"`, or the root element carries the
`"ReactNativeWebView"` class; false when `window` is undefined. -/
def isWebView (e : Env) : Bool :=
  match e.window with
  | some w =>
    w.reactNativeWebView || hasSubstr w.userAgent "ReactNativeWebView" ||
      w.docClasses.contains "ReactNativeWebView"
  | none => false

/-! ## Outbound dispatch (src/functions.ts, `sendMessageToApp`) -/

/-- An outbound message as constructed by the facades: a fixed `action`
discriminant and a `data` payload. -/
structure WVMessage where
  action : String
  data : JSValue

/-- The JSON object a facade's message literal denotes. -/
def WVMessage.toVal (m : WVMessage) : JSValue :=
  .obj (.cons "action" (.str m.action) (.cons "data" m.data .nil))

/-- Translation of `sendMessageToApp` from `src/functions.ts`.  Not in a WebView: throws
(`.error`) with the action name, before anything else.  In a WebView with
the bridge object present: posts `stringifyMessage(message)` (`.ok (some
text)`).  In a WebView detected only via user agent or document class, with
no bridge object: returns silently without posting (`.ok none`). -/
def sendMessageToApp (e : Env) (m : WVMessage) : Except String (Option String) :=
  if isWebView e then
    match e.window with
    | some w =>
      if w.reactNativeWebView then .ok (stringifyMessage m.toVal)
      else .ok none
    | none => .ok none
  else
    .error (m.action ++ " can only be used inside a React Native WebView")

/-! ## The pending request (src/functions.ts, `waitForResponse`) -/

/-- A few of the fraction digits helper: the `timeout / 1000` of the timeout
message, printed the way JavaScript prints the quotient (no trailing
fractional zeros). -/
def stripZeros : List Char → List Char
  | [] => []
  | c :: cs =>
    match stripZeros cs with
    | [] => if c = '0' then [] else [c]
    | r => c :: r

/-- Decimal printing of `ms / 1000` as JavaScript formats the division
result: the whole seconds, then the non-zero millisecond remainder as up to
three fractional digits without trailing zeros. -/
def secondsRepr (ms : Nat) : String :=
  if ms % 1000 = 0 then ⟨natDigits (ms / 1000)⟩
  else
    let r := ms % 1000
    let frac := [digitChar (r / 100), digitChar (r / 10 % 10), digitChar (r % 10)]
    ⟨natDigits (ms / 1000) ++ '.' :: stripZeros frac⟩

/-- The rejection message of the timeout path of `waitForResponse`:
`` `Timeout, ${timeout / 1000}s passed waiting for ${expectedAction} response.` `` -/
def timeoutMessage (timeout : Nat) (expectedAction : String) : String :=
  "Timeout, " ++ secondsRepr timeout ++ "s passed waiting for " ++
    expectedAction ++ " response."

/-- The state of one pending request created by `waitForResponse`: the
expected discriminant and timeout, the settlement of its promise (`none`
while waiting, `some (.ok v)` resolved, `some (.error msg)` rejected),
whether its `message` listener is still registered, and whether its timeout
timer is still pending. -/
structure Pending where
  expected : String
  timeout : Nat
  settled : Option (Except String JSValue)
  listenerActive : Bool
  timerActive : Bool

/-- The state right after `waitForResponse(expectedAction, timeout)` runs
its executor: listener registered, timer started, promise pending. -/
def initPending (expected : String) (timeout : Nat := 60000) : Pending :=
  { expected := expected, timeout := timeout, settled := none,
    listenerActive := true, timerActive := true }

/-- The `handleMessage` listener of `waitForResponse`, as one inbound event
delivery: a removed listener sees nothing; unparseable text is caught and
ignored; a parsed value whose `action` differs from the expected
discriminant is logged and ignored; a matching value clears the timer,
removes the listener and resolves the promise with the parsed value. -/
def handleMessage (p : Pending) (raw : String) : Pending :=
  if p.listenerActive then
    match jsonParse raw with
    | some v =>
      if actionMatches v p.expected then
        { p with
          settled := some (Except.ok v)
          listenerActive := false
          timerActive := false }
      else p
    | none => p
  else p

/-- The `setTimeout` callback of `waitForResponse`: when the timer is still
pending it removes the listener and rejects the promise with the timeout
message (a cleared or already-fired timer does nothing). -/
def fireTimeout (p : Pending) : Pending :=
  if p.timerActive then
    { p with
      settled := some (Except.error (timeoutMessage p.timeout p.expected))
      listenerActive := false
      timerActive := false }
  else p

/-- Deliver one inbound event at time `t` (milliseconds after subscription):
before the deadline the listener alone runs; at or after the deadline the
timer has already fired first. -/
def deliverAt (p : Pending) (t : Nat) (raw : String) : Pending :=
  if t < p.timeout then handleMessage p raw
  else handleMessage (fireTimeout p) raw

/-- Run a pending request against a finite, chronologically ordered list of
time-stamped inbound events; after the last event the timer fires (if still
pending). -/
def run (p : Pending) (events : List (Nat × String)) : Pending :=
  match events with
  | [] => fireTimeout p
  | (t, raw) :: rest => run (deliverAt p t raw) rest

/-- Are the event time stamps in delivery order (non-decreasing)? -/
def chron : List (Nat × String) → Bool
  | [] => true
  | [_] => true
  | (t1, _) :: (t2, r2) :: rest => t1 ≤ t2 && chron ((t2, r2) :: rest)

/-- The settlement of a completed run (a run always settles; the default is
never reached). -/
def outcome (p : Pending) : Except String JSValue :=
  match p.settled with
  | some o => o
  | none => Except.error ""

/-- The observable result of
`waitForResponse(expectedAction, timeout)` against an inbound event
schedule; the timeout defaults to 60000 ms as in the source. -/
def waitForResponse (expected : String) (events : List (Nat × String))
    (timeout : Nat := 60000) : Except String JSValue :=
  outcome (run (initPending expected timeout) events)

/-- First inbound event delivered strictly before the deadline whose text
parses with the expected `action`, if any (the event that resolves the
request). -/
def eventMatch (expected : String) (timeout : Nat) (e : Nat × String) : Option JSValue :=
  if e.1 < timeout then
    match jsonParse e.2 with
    | some v => if actionMatches v expected then some v else none
    | none => none
  else none

/-- The payload of the first matching event, if any. -/
def firstMatch (expected : String) (timeout : Nat)
    (events : List (Nat × String)) : Option JSValue :=
  events.findSome? (eventMatch expected timeout)

/-- States a pending request can actually be in: either live (listener
registered and timer pending) or settled with both released.  Established at
creation and preserved by both callbacks. -/
def okState (p : Pending) : Prop :=
  (p.listenerActive = true ∧ p.timerActive = true) ∨
    (p.settled.isSome = true ∧ p.listenerActive = false ∧ p.timerActive = false)

/-! ## Facades (src/functions.ts) -/

/-- The observable behaviour of one facade call: the settlement of the
returned promise, the text posted through the bridge (if any), and whether
a listener was registered and a timer started. -/
structure FacadeRun where
  result : Except String JSValue
  posted : Option String
  subscribed : Bool
  timerStarted : Bool

/-- The shared control flow of every facade: `sendMessageToApp(message)`
first — a throw there rejects the call before any listener or timer exists —
then `waitForResponse(expected)` with the default timeout. -/
def runFacade (e : Env) (m : WVMessage) (expected : String)
    (events : List (Nat × String)) : FacadeRun :=
  match sendMessageToApp e m with
  | .error msg =>
    { result := .error msg, posted := none, subscribed := false, timerStarted := false }
  | .ok posted =>
    { result := waitForResponse expected events, posted := posted,
      subscribed := true, timerStarted := true }

/-- Input of `deposit`: `(amount, tokenName, chainId)`. -/
structure DepositData where
  amount : String
  tokenName : String
  chainId : Option Int

/-- The message literal `deposit` builds. -/
def depositMessage (d : DepositData) : WVMessage :=
  { action := "DEPOSIT",
    data := .obj (.cons "amount" (.str d.amount)
      (.cons "tokenName" (.str d.tokenName)
      (.cons "chainId" (match d.chainId with | some c => .num c | none => .undef) .nil))) }

/-- Translation of `deposit` from `src/functions.ts`. -/
def deposit (e : Env) (d : DepositData) (events : List (Nat × String)) : FacadeRun :=
  runFacade e (depositMessage d) "DEPOSIT_RESPONSE" events

/-- Input of `withdraw`: `(amount, tokenName)`. -/
structure WithdrawData where
  amount : String
  tokenName : String

/-- The message literal `withdraw` builds. -/
def withdrawMessage (d : WithdrawData) : WVMessage :=
  { action := "WITHDRAW",
    data := .obj (.cons "amount" (.str d.amount)
      (.cons "tokenName" (.str d.tokenName) .nil)) }

/-- Translation of `withdraw` from `src/functions.ts`. -/
def withdraw (e : Env) (d : WithdrawData) (events : List (Nat × String)) : FacadeRun :=
  runFacade e (withdrawMessage d) "WITHDRAW_RESPONSE" events

/-- Input of `callSmartContract`: contracts, titleValues and
descriptionValues (the payload components are carried as values). -/
structure CallSmartContractData where
  contracts : JSValue
  titleValues : JSValue
  descriptionValues : JSValue

/-- The message literal `callSmartContract` builds. -/
def callSmartContractMessage (d : CallSmartContractData) : WVMessage :=
  { action := "CALL_SMART_CONTRACT",
    data := .obj (.cons "contracts" d.contracts
      (.cons "titleValues" d.titleValues
      (.cons "descriptionValues" d.descriptionValues .nil))) }

/-- Translation of `callSmartContract` from `src/functions.ts`. -/
def callSmartContract (e : Env) (d : CallSmartContractData)
    (events : List (Nat × String)) : FacadeRun :=
  runFacade e (callSmartContractMessage d) "CALL_SMART_CONTRACT_RESPONSE" events

/-- Input of `authenticate` (optional): `(nonce, chainId)`. -/
structure AuthenticateData where
  nonce : Option String
  chainId : Option Int

/-- The message literal `authenticate` builds (absent members become
`undefined` fields, dropped by serialization). -/
def authenticateMessage (d : AuthenticateData) : WVMessage :=
  { action := "AUTHENTICATE",
    data := .obj (.cons "nonce" (match d.nonce with | some s => .str s | none => .undef)
      (.cons "chainId" (match d.chainId with | some c => .num c | none => .undef) .nil)) }

/-- Translation of `authenticate` from `src/functions.ts`. -/
def authenticate (e : Env) (d : AuthenticateData)
    (events : List (Nat × String)) : FacadeRun :=
  runFacade e (authenticateMessage d) "AUTHENTICATE_RESPONSE" events

/-! ## The declared response envelope types (src/types.ts) -/

/-- Translation of `TransactionResult` from `src/types.ts`. -/
inductive TransactionResult where
  | success : TransactionResult
  | failed : TransactionResult
  | cancelled : TransactionResult
deriving DecidableEq

/-- Translation of `MiniAppError` from `src/types.ts`. -/
structure MiniAppError where
  message : String
  code : String

/-- The `DepositResponse` union from `src/types.ts`: a three-way tagged
variant discriminated by `result` — `SUCCESS` carries `data.txHash`,
`FAILED` carries `error`, `CANCELLED` carries neither. -/
inductive DepositResponse where
  | success (txHash : String) : DepositResponse
  | failed (err : MiniAppError) : DepositResponse
  | cancelled : DepositResponse

/-- The `result` discriminant of a declared envelope. -/
def DepositResponse.resultOf : DepositResponse → TransactionResult
  | .success _ => .success
  | .failed _ => .failed
  | .cancelled => .cancelled

/-- The `data` field of a declared envelope, when present. -/
def DepositResponse.dataOf : DepositResponse → Option String
  | .success h => some h
  | _ => none

/-- The `error` field of a declared envelope, when present. -/
def DepositResponse.errorOf : DepositResponse → Option MiniAppError
  | .failed e => some e
  | _ => none

/-! ## State-machine lemmas for the pending request -/

theorem handleMessage_inactive (p : Pending) (raw : String)
    (h : p.listenerActive = false) : handleMessage p raw = p := by
  simp [handleMessage, h]

theorem fireTimeout_inactive (p : Pending)
    (h : p.timerActive = false) : fireTimeout p = p := by
  simp [fireTimeout, h]

theorem handleMessage_nomatch (p : Pending) (raw : String)
    (h : jsonParse raw = none ∨
      ∀ v, jsonParse raw = some v → actionMatches v p.expected = false) :
    handleMessage p raw = p := by
  unfold handleMessage
  cases hl : p.listenerActive with
  | false => rfl
  | true =>
    cases hv : jsonParse raw with
    | none => rfl
    | some v =>
      rcases h with h | h
      · rw [h] at hv
        cases hv
      · simp [h v hv]

theorem handleMessage_match (p : Pending) (raw : String) (v : JSValue)
    (hl : p.listenerActive = true) (hv : jsonParse raw = some v)
    (ha : actionMatches v p.expected = true) :
    handleMessage p raw =
      { p with
        settled := some (Except.ok v)
        listenerActive := false
        timerActive := false } := by
  simp [handleMessage, hl, hv, ha]

theorem fireTimeout_active (p : Pending) (ht : p.timerActive = true) :
    fireTimeout p =
      { p with
        settled := some (Except.error (timeoutMessage p.timeout p.expected))
        listenerActive := false
        timerActive := false } := by
  simp [fireTimeout, ht]

theorem run_frozen (events : List (Nat × String)) (p : Pending)
    (hl : p.listenerActive = false) (ht : p.timerActive = false) :
    run p events = p := by
  induction events generalizing p with
  | nil => simpa [run] using fireTimeout_inactive p ht
  | cons e rest ih =>
    obtain ⟨t, raw⟩ := e
    have hd : deliverAt p t raw = p := by
      unfold deliverAt
      by_cases h : t < p.timeout
      · simpa [h] using handleMessage_inactive p raw hl
      · rw [if_neg h, fireTimeout_inactive p ht, handleMessage_inactive p raw hl]
    rw [run, hd]
    exact ih p hl ht

theorem chron_cons (t : Nat) (raw : String) (rest : List (Nat × String))
    (h : chron ((t, raw) :: rest) = true) :
    chron rest = true ∧ ∀ e ∈ rest, t ≤ e.1 := by
  induction rest generalizing t raw with
  | nil => simp [chron]
  | cons e2 rest2 ih =>
    obtain ⟨t2, raw2⟩ := e2
    rw [chron, Bool.and_eq_true] at h
    obtain ⟨h1, h2⟩ := h
    have hle : t ≤ t2 := of_decide_eq_true h1
    obtain ⟨hc2, hall2⟩ := ih t2 raw2 h2
    refine ⟨h2, ?_⟩
    intro e he
    rcases List.mem_cons.mp he with rfl | he2
    · exact hle
    · exact le_trans hle (hall2 e he2)

theorem firstMatch_cons_some (expected : String) (timeout : Nat) (e : Nat × String)
    (rest : List (Nat × String)) (v : JSValue)
    (h : eventMatch expected timeout e = some v) :
    firstMatch expected timeout (e :: rest) = some v := by
  unfold firstMatch
  rw [List.findSome?_cons, h]

theorem firstMatch_cons_none (expected : String) (timeout : Nat) (e : Nat × String)
    (rest : List (Nat × String))
    (h : eventMatch expected timeout e = none) :
    firstMatch expected timeout (e :: rest) = firstMatch expected timeout rest := by
  unfold firstMatch
  rw [List.findSome?_cons, h]

theorem firstMatch_none_of_late (expected : String) (timeout : Nat)
    (events : List (Nat × String)) (h : ∀ e ∈ events, ¬ e.1 < timeout) :
    firstMatch expected timeout events = none := by
  induction events with
  | nil => rfl
  | cons e rest ih =>
    have he : eventMatch expected timeout e = none := by
      unfold eventMatch
      rw [if_neg (h e (List.mem_cons_self e rest))]
    rw [firstMatch_cons_none expected timeout e rest he]
    exact ih fun x hx => h x (List.mem_cons_of_mem e hx)

theorem eventMatch_some (expected : String) (timeout : Nat) (e : Nat × String)
    (v : JSValue) (h : eventMatch expected timeout e = some v) :
    e.1 < timeout ∧ jsonParse e.2 = some v ∧ actionMatches v expected = true := by
  unfold eventMatch at h
  by_cases h1 : e.1 < timeout
  · rw [if_pos h1] at h
    cases hv : jsonParse e.2 with
    | none => rw [hv] at h; cases h
    | some u =>
      rw [hv] at h
      by_cases ha : actionMatches u expected
      · simp only [ha, if_true] at h
        cases h
        exact ⟨h1, rfl, ha⟩
      · simp [ha] at h
  · rw [if_neg h1] at h
    cases h

theorem firstMatch_some (expected : String) (timeout : Nat)
    (events : List (Nat × String)) (v : JSValue)
    (h : firstMatch expected timeout events = some v) :
    actionMatches v expected = true := by
  induction events with
  | nil => cases h
  | cons e rest ih =>
    cases he : eventMatch expected timeout e with
    | none =>
      rw [firstMatch_cons_none expected timeout e rest he] at h
      exact ih h
    | some w =>
      rw [firstMatch_cons_some expected timeout e rest w he] at h
      cases h
      exact (eventMatch_some expected timeout e v he).2.2

/-- The central run characterization: from a live pending state (listener
registered, timer pending), a chronologically ordered schedule settles the
promise with the first matching pre-deadline event's payload, or with the
timeout rejection when there is none. -/
theorem run_waiting (events : List (Nat × String)) (p : Pending)
    (hl : p.listenerActive = true) (ht : p.timerActive = true)
    (hc : chron events = true) :
    (run p events).settled =
      some (match firstMatch p.expected p.timeout events with
            | some v => Except.ok v
            | none => Except.error (timeoutMessage p.timeout p.expected)) := by
  induction events generalizing p with
  | nil =>
    rw [run, fireTimeout_active p ht]
    rfl
  | cons e rest ih =>
    obtain ⟨t, raw⟩ := e
    obtain ⟨hcr, hall⟩ := chron_cons t raw rest hc
    rw [run]
    by_cases h1 : t < p.timeout
    · rw [show deliverAt p t raw = handleMessage p raw from if_pos h1]
      cases hv : jsonParse raw with
      | none =>
        rw [handleMessage_nomatch p raw (Or.inl hv)]
        rw [ih p hl ht hcr]
        have he : eventMatch p.expected p.timeout (t, raw) = none := by
          unfold eventMatch
          simp only [if_pos h1, hv]
        rw [firstMatch_cons_none p.expected p.timeout (t, raw) rest he]
      | some v =>
        by_cases ha : actionMatches v p.expected
        · rw [handleMessage_match p raw v hl hv ha]
          rw [run_frozen rest _ rfl rfl]
          have he : eventMatch p.expected p.timeout (t, raw) = some v := by
            unfold eventMatch
            simp only [if_pos h1, hv, ha, if_true]
          rw [firstMatch_cons_some p.expected p.timeout (t, raw) rest v he]
        · rw [handleMessage_nomatch p raw
            (Or.inr fun u hu => by
              rw [hu] at hv
              cases hv
              exact Bool.eq_false_iff.mpr ha)]
          rw [ih p hl ht hcr]
          have he : eventMatch p.expected p.timeout (t, raw) = none := by
            unfold eventMatch
            simp [if_pos h1, hv, ha]
          rw [firstMatch_cons_none p.expected p.timeout (t, raw) rest he]
    · rw [show deliverAt p t raw = handleMessage (fireTimeout p) raw from if_neg h1]
      rw [fireTimeout_active p ht]
      rw [handleMessage_inactive _ raw rfl]
      rw [run_frozen rest _ rfl rfl]
      have he : eventMatch p.expected p.timeout (t, raw) = none := by
        unfold eventMatch
        rw [if_neg h1]
      rw [firstMatch_cons_none p.expected p.timeout (t, raw) rest he]
      rw [firstMatch_none_of_late p.expected p.timeout rest
        (fun x hx => by
          have := hall x hx
          omega)]

/-! ## Invariant preservation and substring helpers -/

theorem handleMessage_nomatch_of_wrong (p : Pending) (raw : String) (v : JSValue)
    (hv : jsonParse raw = some v) (ha : ¬ actionMatches v p.expected = true) :
    handleMessage p raw = p :=
  handleMessage_nomatch p raw (Or.inr fun u hu => by
    rw [hu] at hv
    cases hv
    exact Bool.eq_false_iff.mpr ha)

theorem okState_handleMessage (p : Pending) (raw : String) (h : okState p) :
    okState (handleMessage p raw) := by
  rcases h with ⟨hl, ht⟩ | ⟨hs, hl, ht⟩
  · cases hv : jsonParse raw with
    | none =>
      rw [handleMessage_nomatch p raw (Or.inl hv)]
      exact Or.inl ⟨hl, ht⟩
    | some v =>
      by_cases ha : actionMatches v p.expected = true
      · rw [handleMessage_match p raw v hl hv ha]
        exact Or.inr ⟨rfl, rfl, rfl⟩
      · rw [handleMessage_nomatch_of_wrong p raw v hv ha]
        exact Or.inl ⟨hl, ht⟩
  · rw [handleMessage_inactive p raw hl]
    exact Or.inr ⟨hs, hl, ht⟩

theorem okState_fireTimeout (p : Pending) (h : okState p) :
    okState (fireTimeout p) := by
  rcases h with ⟨hl, ht⟩ | ⟨hs, hl, ht⟩
  · rw [fireTimeout_active p ht]
    exact Or.inr ⟨rfl, rfl, rfl⟩
  · rw [fireTimeout_inactive p ht]
    exact Or.inr ⟨hs, hl, ht⟩

theorem okState_deliverAt (p : Pending) (t : Nat) (raw : String) (h : okState p) :
    okState (deliverAt p t raw) := by
  unfold deliverAt
  by_cases h1 : t < p.timeout
  · rw [if_pos h1]
    exact okState_handleMessage p raw h
  · rw [if_neg h1]
    exact okState_handleMessage _ raw (okState_fireTimeout p h)

/-- A run from a well-formed state always ends settled and fully released:
listener removed, timer no longer pending, promise settled. -/
theorem run_done (events : List (Nat × String)) (p : Pending) (h : okState p) :
    (run p events).listenerActive = false ∧ (run p events).timerActive = false ∧
      ((run p events).settled).isSome = true := by
  induction events generalizing p with
  | nil =>
    rw [run]
    rcases h with ⟨hl, ht⟩ | ⟨hs, hl, ht⟩
    · rw [fireTimeout_active p ht]
      exact ⟨rfl, rfl, rfl⟩
    · rw [fireTimeout_inactive p ht]
      exact ⟨hl, ht, hs⟩
  | cons e rest ih =>
    obtain ⟨t, raw⟩ := e
    rw [run]
    exact ih (deliverAt p t raw) (okState_deliverAt p t raw h)

theorem isPrefixOf_append_self (n t : List Char) : n.isPrefixOf (n ++ t) = true := by
  induction n with
  | nil => simp [List.isPrefixOf]
  | cons c cs ih => simp [List.isPrefixOf, ih]

/-- A string built around `n` contains `n` as a substring. -/
theorem hasSubstr_parts (x n y : String) : hasSubstr (x ++ n ++ y) n = true := by
  unfold hasSubstr
  rw [List.any_eq_true]
  refine ⟨n.data ++ y.data, ?_, ?_⟩
  · rw [List.mem_tails]
    exact ⟨x.data, by simp [String.data_append]⟩
  · exact isPrefixOf_append_self n.data y.data

theorem timeoutMessage_contains_action (T : Nat) (D : String) :
    hasSubstr (timeoutMessage T D) D = true := by
  have h : timeoutMessage T D =
      ("Timeout, " ++ secondsRepr T ++ "s passed waiting for ") ++ D ++ " response." := by
    apply String.ext
    simp [timeoutMessage, String.data_append]
  rw [h]
  exact hasSubstr_parts _ D _

theorem timeoutMessage_contains_duration (T : Nat) (D : String) :
    hasSubstr (timeoutMessage T D) (secondsRepr T ++ "s") = true := by
  have h : timeoutMessage T D =
      "Timeout, " ++ (secondsRepr T ++ "s") ++
        (" passed waiting for " ++ D ++ " response.") := by
    apply String.ext
    simp [timeoutMessage, String.data_append]
  rw [h]
  exact hasSubstr_parts _ _ _

/-! ## Decimal printing and parsing lemmas -/

theorem digitChar_isDigit (d : Nat) (h : d < 10) : isDigitCh (digitChar d) = true := by
  interval_cases d <;> decide

theorem digitChar_val (d : Nat) (h : d < 10) : (digitChar d).toNat - 48 = d := by
  interval_cases d <;> decide

theorem digitsToNat_append_one (a : List Char) (c : Char) :
    digitsToNat (a ++ [c]) = 10 * digitsToNat a + (c.toNat - 48) := by
  unfold digitsToNat
  rw [List.foldl_append]
  rfl

theorem natDigitsAux_spec (f : Nat) :
    ∀ n, n ≤ f →
      (natDigitsAux f n).all isDigitCh = true ∧
      digitsToNat (natDigitsAux f n) = n ∧
      natDigitsAux f n ≠ [] := by
  induction f with
  | zero =>
    intro n hn
    have h0 : n = 0 := Nat.le_zero.mp hn
    subst h0
    refine ⟨by decide, by decide, by decide⟩
  | succ f ih =>
    intro n hn
    by_cases h10 : n < 10
    · unfold natDigitsAux
      rw [if_pos h10]
      refine ⟨?_, ?_, by simp⟩
      · simp [List.all_cons, digitChar_isDigit n h10]
      · show digitsToNat [digitChar n] = n
        have : digitsToNat [digitChar n] = (digitChar n).toNat - 48 := by
          unfold digitsToNat
          simp
        rw [this, digitChar_val n h10]
    · have hdiv : n / 10 < n := Nat.div_lt_self (by omega) (by omega)
      have hle : n / 10 ≤ f := by omega
      obtain ⟨hall, hval, _hne⟩ := ih (n / 10) hle
      unfold natDigitsAux
      rw [if_neg h10]
      have hmod : n % 10 < 10 := Nat.mod_lt n (by omega)
      refine ⟨?_, ?_, by simp⟩
      · rw [List.all_append, hall]
        simp [List.all_cons, digitChar_isDigit (n % 10) hmod]
      · rw [digitsToNat_append_one, hval, digitChar_val (n % 10) hmod]
        omega

theorem natDigits_all (n : Nat) : (natDigits n).all isDigitCh = true :=
  (natDigitsAux_spec n n le_rfl).1

theorem natDigits_val (n : Nat) : digitsToNat (natDigits n) = n :=
  (natDigitsAux_spec n n le_rfl).2.1

theorem natDigits_ne_nil (n : Nat) : natDigits n ≠ [] :=
  (natDigitsAux_spec n n le_rfl).2.2

theorem natDigits_shape (n : Nat) :
    ∃ d ds, natDigits n = d :: ds ∧ isDigitCh d = true := by
  cases hd : natDigits n with
  | nil => exact absurd hd (natDigits_ne_nil n)
  | cons d ds =>
    refine ⟨d, ds, rfl, ?_⟩
    have h := natDigits_all n
    rw [hd, List.all_cons, Bool.and_eq_true] at h
    exact h.1

theorem span_digits (ds rest : List Char) (hall : ds.all isDigitCh = true)
    (hrest : headNotDigit rest = true) :
    (ds ++ rest).takeWhile isDigitCh = ds ∧ (ds ++ rest).dropWhile isDigitCh = rest := by
  induction ds with
  | nil =>
    simp only [List.nil_append]
    cases rest with
    | nil => exact ⟨rfl, rfl⟩
    | cons c cs =>
      unfold headNotDigit at hrest
      rw [Bool.not_eq_true'] at hrest
      exact ⟨by simp [List.takeWhile_cons, hrest], by simp [List.dropWhile_cons, hrest]⟩
  | cons d ds ih =>
    rw [List.all_cons, Bool.and_eq_true] at hall
    obtain ⟨hd, hds⟩ := hall
    obtain ⟨h1, h2⟩ := ih hds
    constructor
    · rw [List.cons_append, List.takeWhile_cons, hd]
      simp [h1]
    · rw [List.cons_append, List.dropWhile_cons, hd]
      simpa using h2

/-- The parser reads back a natural number literal followed by a
non-digit. -/
theorem pVal_nat (f n : Nat) (rest : List Char) (hr : headNotDigit rest = true) :
    pVal (f + 1) (natDigits n ++ rest) = some (.num (n : Int), rest) := by
  obtain ⟨d, ds, hshape, hd⟩ := natDigits_shape n
  have hall := natDigits_all n
  have hspan := span_digits (natDigits n) rest hall hr
  rw [hshape] at hspan ⊢
  rw [List.cons_append]
  have hn : d ≠ 'n' := fun h => by subst h; cases hd
  have ht : d ≠ 't' := fun h => by subst h; cases hd
  have hf : d ≠ 'f' := fun h => by subst h; cases hd
  have hq : d ≠ '"' := fun h => by subst h; cases hd
  have hb : d ≠ '[' := fun h => by subst h; cases hd
  have hc : d ≠ '{' := fun h => by subst h; cases hd
  have hm : d ≠ '-' := fun h => by subst h; cases hd
  unfold pVal
  rw [if_neg hn, if_neg ht, if_neg hf, if_neg hq, if_neg hb, if_neg hc, if_neg hm,
    if_pos hd]
  rw [show d :: (ds ++ rest) = (d :: ds) ++ rest from rfl]
  rw [hspan.1, hspan.2]
  have hval := natDigits_val n
  rw [hshape] at hval
  rw [hval]

/-- The parser reads back any integer literal followed by a non-digit. -/
theorem pVal_int (f : Nat) (i : Int) (rest : List Char) (hr : headNotDigit rest = true) :
    pVal (f + 1) (intChars i ++ rest) = some (.num i, rest) := by
  unfold intChars
  by_cases hneg : i < 0
  · rw [if_pos hneg]
    obtain ⟨d, ds, hshape, hd⟩ := natDigits_shape i.natAbs
    have hall := natDigits_all i.natAbs
    have hspan := span_digits (natDigits i.natAbs) rest hall hr
    rw [List.cons_append]
    unfold pVal
    rw [if_neg (by decide : ¬ ('-' : Char) = 'n'), if_neg (by decide : ¬ ('-' : Char) = 't'),
      if_neg (by decide : ¬ ('-' : Char) = 'f'), if_neg (by decide : ¬ ('-' : Char) = '"'),
      if_neg (by decide : ¬ ('-' : Char) = '['), if_neg (by decide : ¬ ('-' : Char) = '{'),
      if_pos rfl]
    have hnd : headNotDigit (natDigits i.natAbs ++ rest) = false := by
      rw [hshape, List.cons_append]
      show (!isDigitCh d) = false
      rw [hd]
      rfl
    rw [if_neg (by rw [hnd]; exact Bool.false_ne_true)]
    rw [hspan.1, hspan.2]
    rw [natDigits_val i.natAbs]
    have heq : -((i.natAbs : Nat) : Int) = i := by omega
    rw [heq]
  · rw [if_neg hneg]
    have : ((i.natAbs : Nat) : Int) = i := by omega
    rw [← this]
    exact pVal_nat f i.natAbs rest hr

/-- The string-literal parser inverts the escaper. -/
theorem pStringChars_enc (s rest : List Char) :
    pStringChars (escapeList s ++ '"' :: rest) = some (s, rest) := by
  induction s with
  | nil =>
    show pStringChars ('"' :: rest) = some ([], rest)
    unfold pStringChars
    rw [if_pos rfl]
  | cons c cs ih =>
    show pStringChars (escapeChar c ++ escapeList cs ++ '"' :: rest) = some (c :: cs, rest)
    unfold escapeChar
    by_cases h1 : c = '"'
    · subst h1
      rw [if_pos rfl]
      show pStringChars ('\\' :: '"' :: (escapeList cs ++ '"' :: rest)) = _
      unfold pStringChars
      rw [if_neg (by decide), if_pos rfl]
      simp only [if_pos rfl]
      rw [ih]
      rfl
    · rw [if_neg h1]
      by_cases h2 : c = '\\'
      · subst h2
        rw [if_pos rfl]
        show pStringChars ('\\' :: '\\' :: (escapeList cs ++ '"' :: rest)) = _
        unfold pStringChars
        rw [if_neg (by decide), if_pos rfl]
        simp only [if_neg (by decide : ¬ ('\\' : Char) = '"'), if_pos rfl]
        rw [ih]
        rfl
      · rw [if_neg h2]
        show pStringChars (c :: (escapeList cs ++ '"' :: rest)) = _
        unfold pStringChars
        rw [if_neg h1, if_neg h2, ih]

theorem decodeDecimal_neg_digits (ds : List Char) (hne : ds ≠ [])
    (hall : ds.all isDigitCh = true) :
    decodeDecimal ⟨'-' :: ds⟩ = some (-(digitsToNat ds : Int)) := by
  unfold decodeDecimal
  show (if ('-' : Char) = '-' then
      if ds ≠ [] ∧ ds.all isDigitCh then some (-(digitsToNat ds : Int)) else none
    else
      if ('-' :: ds).all isDigitCh then some ((digitsToNat ('-' :: ds) : Int)) else none) =
    some (-(digitsToNat ds : Int))
  rw [if_pos rfl, if_pos ⟨hne, hall⟩]

theorem decodeDecimal_digits (d : Char) (ds : List Char) (hd : isDigitCh d = true)
    (hall : (d :: ds).all isDigitCh = true) :
    decodeDecimal ⟨d :: ds⟩ = some ((digitsToNat (d :: ds) : Int)) := by
  unfold decodeDecimal
  show (if d = '-' then
      if ds ≠ [] ∧ ds.all isDigitCh then some (-(digitsToNat ds : Int)) else none
    else
      if (d :: ds).all isDigitCh then some ((digitsToNat (d :: ds) : Int)) else none) =
    some ((digitsToNat (d :: ds) : Int))
  rw [if_neg (fun h => by subst h; cases hd), if_pos hall]

/-- Decoding inverts exact decimal printing: the string `stringifyMessage`
writes for a `BigInt` denotes exactly that integer. -/
theorem decodeDecimal_intDecimal (i : Int) : decodeDecimal (intDecimal i) = some i := by
  unfold intDecimal intChars
  by_cases hneg : i < 0
  · rw [if_pos hneg]
    rw [decodeDecimal_neg_digits (natDigits i.natAbs) (natDigits_ne_nil _) (natDigits_all _)]
    rw [natDigits_val]
    congr 1
    omega
  · rw [if_neg hneg]
    obtain ⟨d, ds, hshape, hd⟩ := natDigits_shape i.natAbs
    rw [hshape]
    have hall := natDigits_all i.natAbs
    rw [hshape] at hall
    rw [decodeDecimal_digits d ds hd hall]
    have hval := natDigits_val i.natAbs
    rw [hshape] at hval
    rw [hval]
    congr 1
    omega

/-! ## Encoder shape lemmas -/

theorem isUndef_false_of_noUndef (v : JSValue) (h : noUndef v = true) :
    isUndef v = false := by
  cases v <;> simp [isUndef, noUndef] at h ⊢

theorem encVal_head (v : JSValue) (a : List Char) (hD : noDbl v = true)
    (he : encVal v = some a) :
    ∃ c cs, a = c :: cs ∧ c ≠ ']' ∧ c ≠ '}' := by
  cases v with
  | null =>
    injection he with h
    exact ⟨'n', ['u', 'l', 'l'], h.symm, by decide, by decide⟩
  | undef => cases he
  | bool b =>
    cases b with
    | true =>
      injection he with h
      exact ⟨'t', ['r', 'u', 'e'], h.symm, by decide, by decide⟩
    | false =>
      injection he with h
      exact ⟨'f', ['a', 'l', 's', 'e'], h.symm, by decide, by decide⟩
  | num i =>
    injection he with h
    unfold intChars at h
    by_cases hneg : i < 0
    · rw [if_pos hneg] at h
      exact ⟨'-', natDigits i.natAbs, h.symm, by decide, by decide⟩
    · rw [if_neg hneg] at h
      obtain ⟨d, ds, hshape, hd⟩ := natDigits_shape i.natAbs
      rw [hshape] at h
      refine ⟨d, ds, h.symm, ?_, ?_⟩
      · intro hE
        subst hE
        cases hd
      · intro hE
        subst hE
        cases hd
  | dbl lit => simp [noDbl] at hD
  | str s0 =>
    injection he with h
    exact ⟨'"', escapeList s0.data ++ ['"'], h.symm, by decide, by decide⟩
  | bigint i => cases he
  | arr xs =>
    cases xs with
    | nil =>
      injection he with h
      exact ⟨'[', [']'], h.symm, by decide, by decide⟩
    | cons x xs2 =>
      unfold encVal at he
      cases hee : encElems (.cons x xs2) with
      | none => rw [hee] at he; cases he
      | some body =>
        rw [hee] at he
        injection he with h
        exact ⟨'[', body ++ [']'], h.symm, by decide, by decide⟩
  | obj fs =>
    unfold encVal at he
    cases hef : encFields fs with
    | none => rw [hef] at he; cases he
    | some parts =>
      rw [hef] at he
      injection he with h
      exact ⟨'{', joinComma parts ++ ['}'], h.symm, by decide, by decide⟩

theorem encElems_head (x : JSValue) (xs : JSList) (body : List Char)
    (hU : noUndefL (.cons x xs) = true) (hD : noDblL (.cons x xs) = true)
    (he : encElems (.cons x xs) = some body) :
    ∃ c cs, body = c :: cs ∧ c ≠ ']' ∧ c ≠ '}' := by
  rw [noUndefL, Bool.and_eq_true] at hU
  rw [noDblL, Bool.and_eq_true] at hD
  have hnu := isUndef_false_of_noUndef x hU.1
  cases xs with
  | nil =>
    rw [encElems, if_neg (by rw [hnu]; exact Bool.false_ne_true)] at he
    exact encVal_head x body hD.1 he
  | cons y ys =>
    rw [encElems, if_neg (by rw [hnu]; exact Bool.false_ne_true)] at he
    cases ha : encVal x with
    | none => rw [ha] at he; cases he
    | some a =>
      rw [ha] at he
      cases hb : encElems (.cons y ys) with
      | none => rw [hb] at he; cases he
      | some b =>
        rw [hb] at he
        injection he with h
        obtain ⟨c, cs, hac, hc1, hc2⟩ := encVal_head x a hD.1 ha
        exact ⟨c, cs ++ ',' :: b, by rw [← h, hac, List.cons_append], hc1, hc2⟩

theorem encFields_nil_of (fs : JSFields) (hU : noUndefF fs = true)
    (he : encFields fs = some []) : fs = JSFields.nil := by
  cases fs with
  | nil => rfl
  | cons k v fs2 =>
    rw [noUndefF, Bool.and_eq_true] at hU
    have hnu := isUndef_false_of_noUndef v hU.1
    rw [encFields, if_neg (by rw [hnu]; exact Bool.false_ne_true)] at he
    cases ha : encVal v with
    | none => rw [ha] at he; cases he
    | some sv =>
      rw [ha] at he
      cases hb : encFields fs2 with
      | none => rw [hb] at he; cases he
      | some parts2 =>
        rw [hb] at he
        cases he

theorem encFields_cons_shape (k : String) (v : JSValue) (fs : JSFields)
    (parts : List (List Char)) (hU : noUndefF (.cons k v fs) = true)
    (he : encFields (.cons k v fs) = some parts) :
    ∃ sv parts2, encVal v = some sv ∧ encFields fs = some parts2 ∧
      parts = (encStrChars k ++ ':' :: sv) :: parts2 := by
  rw [noUndefF, Bool.and_eq_true] at hU
  have hnu := isUndef_false_of_noUndef v hU.1
  rw [encFields, if_neg (by rw [hnu]; exact Bool.false_ne_true)] at he
  cases ha : encVal v with
  | none => rw [ha] at he; cases he
  | some sv =>
    rw [ha] at he
    cases hb : encFields fs with
    | none => rw [hb] at he; cases he
    | some parts2 =>
      rw [hb] at he
      injection he with h
      exact ⟨sv, parts2, rfl, rfl, h.symm⟩

theorem joinComma_cons (p : List Char) (parts : List (List Char)) :
    ∃ t, joinComma (p :: parts) = p ++ t := by
  cases parts with
  | nil => exact ⟨[], by simp [joinComma]⟩
  | cons q qs => exact ⟨',' :: joinComma (q :: qs), rfl⟩

/-! ## Properties of the rewrite stage -/

mutual

theorem noUndef_convert (v : JSValue) (h : noUndef v = true) :
    noUndef (convertToString v) = true := by
  cases v with
  | arr xs => exact noUndefL_convert xs h
  | obj fs => exact noUndefF_convert fs h
  | undef => cases h
  | bigint i => rfl
  | null => rfl
  | bool b => rfl
  | num n => rfl
  | dbl lit => rfl
  | str s => rfl

theorem noUndefL_convert (xs : JSList) (h : noUndefL xs = true) :
    noUndefL (convertList xs) = true := by
  cases xs with
  | nil => rfl
  | cons x xs2 =>
    rw [noUndefL, Bool.and_eq_true] at h
    show (noUndef (convertToString x) && noUndefL (convertList xs2)) = true
    rw [noUndef_convert x h.1, noUndefL_convert xs2 h.2]
    rfl

theorem noUndefF_convert (fs : JSFields) (h : noUndefF fs = true) :
    noUndefF (convertFields fs) = true := by
  cases fs with
  | nil => rfl
  | cons k v fs2 =>
    rw [noUndefF, Bool.and_eq_true] at h
    show (noUndef (convertToString v) && noUndefF (convertFields fs2)) = true
    rw [noUndef_convert v h.1, noUndefF_convert fs2 h.2]
    rfl

end

mutual

theorem noDbl_convert (v : JSValue) (h : noDbl v = true) :
    noDbl (convertToString v) = true := by
  cases v with
  | arr xs => exact noDblL_convert xs h
  | obj fs => exact noDblF_convert fs h
  | dbl lit => cases h
  | bigint i => rfl
  | null => rfl
  | undef => rfl
  | bool b => rfl
  | num n => rfl
  | str s => rfl

theorem noDblL_convert (xs : JSList) (h : noDblL xs = true) :
    noDblL (convertList xs) = true := by
  cases xs with
  | nil => rfl
  | cons x xs2 =>
    rw [noDblL, Bool.and_eq_true] at h
    show (noDbl (convertToString x) && noDblL (convertList xs2)) = true
    rw [noDbl_convert x h.1, noDblL_convert xs2 h.2]
    rfl

theorem noDblF_convert (fs : JSFields) (h : noDblF fs = true) :
    noDblF (convertFields fs) = true := by
  cases fs with
  | nil => rfl
  | cons k v fs2 =>
    rw [noDblF, Bool.and_eq_true] at h
    show (noDbl (convertToString v) && noDblF (convertFields fs2)) = true
    rw [noDbl_convert v h.1, noDblF_convert fs2 h.2]
    rfl

end

mutual

theorem noBig_convert (v : JSValue) : noBig (convertToString v) = true := by
  cases v with
  | arr xs => exact noBigL_convert xs
  | obj fs => exact noBigF_convert fs
  | bigint i => rfl
  | null => rfl
  | undef => rfl
  | bool b => rfl
  | num n => rfl
  | dbl lit => rfl
  | str s => rfl

theorem noBigL_convert (xs : JSList) : noBigL (convertList xs) = true := by
  cases xs with
  | nil => rfl
  | cons x xs2 =>
    show (noBig (convertToString x) && noBigL (convertList xs2)) = true
    rw [noBig_convert x, noBigL_convert xs2]
    rfl

theorem noBigF_convert (fs : JSFields) : noBigF (convertFields fs) = true := by
  cases fs with
  | nil => rfl
  | cons k v fs2 =>
    show (noBig (convertToString v) && noBigF (convertFields fs2)) = true
    rw [noBig_convert v, noBigF_convert fs2]
    rfl

end

mutual

theorem encVal_total (v : JSValue) (hU : noUndef v = true) (hB : noBig v = true) :
    ∃ s, encVal v = some s := by
  cases v with
  | null => exact ⟨_, rfl⟩
  | undef => cases hU
  | bool b => exact ⟨_, rfl⟩
  | num i => exact ⟨_, rfl⟩
  | dbl lit => exact ⟨_, rfl⟩
  | str s0 => exact ⟨_, rfl⟩
  | bigint i => cases hB
  | arr xs =>
    cases xs with
    | nil => exact ⟨_, rfl⟩
    | cons x xs2 =>
      obtain ⟨body, hbody⟩ := encElems_total (.cons x xs2) hU hB
      exact ⟨'[' :: body ++ [']'], by rw [encVal, hbody]⟩
  | obj fs =>
    obtain ⟨parts, hparts⟩ := encFields_total fs hU hB
    exact ⟨'{' :: joinComma parts ++ ['}'], by rw [encVal, hparts]⟩

theorem encElems_total (xs : JSList) (hU : noUndefL xs = true) (hB : noBigL xs = true) :
    ∃ s, encElems xs = some s := by
  cases xs with
  | nil => exact ⟨[], rfl⟩
  | cons x xs2 =>
    rw [noUndefL, Bool.and_eq_true] at hU
    rw [noBigL, Bool.and_eq_true] at hB
    have hnu := isUndef_false_of_noUndef x hU.1
    obtain ⟨a, ha⟩ := encVal_total x hU.1 hB.1
    cases xs2 with
    | nil =>
      refine ⟨a, ?_⟩
      rw [encElems, if_neg (by rw [hnu]; exact Bool.false_ne_true)]
      exact ha
    | cons y ys =>
      obtain ⟨b, hb⟩ := encElems_total (.cons y ys) hU.2 hB.2
      refine ⟨a ++ ',' :: b, ?_⟩
      rw [encElems, if_neg (by rw [hnu]; exact Bool.false_ne_true), ha, hb]
      rfl

theorem encFields_total (fs : JSFields) (hU : noUndefF fs = true) (hB : noBigF fs = true) :
    ∃ parts, encFields fs = some parts := by
  cases fs with
  | nil => exact ⟨[], rfl⟩
  | cons k v fs2 =>
    rw [noUndefF, Bool.and_eq_true] at hU
    rw [noBigF, Bool.and_eq_true] at hB
    have hnu := isUndef_false_of_noUndef v hU.1
    obtain ⟨sv, hsv⟩ := encVal_total v hU.1 hB.1
    obtain ⟨parts2, hparts2⟩ := encFields_total fs2 hU.2 hB.2
    refine ⟨(encStrChars k ++ ':' :: sv) :: parts2, ?_⟩
    rw [encFields, if_neg (by rw [hnu]; exact Bool.false_ne_true), hsv, hparts2]
    rfl

end

/-! ## The parser inverts the encoder -/

mutual

/-- Round-trip: parsing an encoded value (followed by any non-digit-headed
tail) returns the value and the tail untouched. -/
theorem pVal_encVal (v : JSValue) :
    ∀ (s rest : List Char) (f : Nat), noUndef v = true → noDbl v = true →
      encVal v = some s → s.length < f → headNotDigit rest = true →
      pVal f (s ++ rest) = some (v, rest) := by
  intro s rest f hU hD he hlen hr
  obtain ⟨f2, rfl⟩ : ∃ f2, f = f2 + 1 := ⟨f - 1, by omega⟩
  cases v with
  | null =>
    injection he with h
    subst h
    rfl
  | undef => cases hU
  | bool b =>
    cases b with
    | true =>
      injection he with h
      subst h
      rfl
    | false =>
      injection he with h
      subst h
      rfl
  | num i =>
    injection he with h
    subst h
    exact pVal_int f2 i rest hr
  | dbl lit => cases hD
  | str s0 =>
    injection he with h
    subst h
    show pVal (f2 + 1) (('"' :: escapeList s0.data ++ ['"']) ++ rest) = some (.str s0, rest)
    rw [show ('"' :: escapeList s0.data ++ ['"']) ++ rest =
      '"' :: (escapeList s0.data ++ '"' :: rest) from by simp]
    unfold pVal
    rw [if_neg (by decide), if_neg (by decide), if_neg (by decide), if_pos rfl]
    rw [pStringChars_enc s0.data rest]
  | bigint i => cases he
  | arr xs =>
    cases xs with
    | nil =>
      injection he with h
      subst h
      rfl
    | cons x xs2 =>
      rw [encVal] at he
      cases hee : encElems (.cons x xs2) with
      | none => rw [hee] at he; cases he
      | some body =>
        rw [hee] at he
        injection he with h
        subst h
        obtain ⟨c, cs, hbody, hc1, _hc2⟩ := encElems_head x xs2 body hU hD hee
        have hTake : ¬ (body ++ ']' :: rest).take 1 = [']'] := by
          rw [hbody, List.cons_append]
          intro hT
          rw [List.take_succ_cons, List.take_zero] at hT
          exact hc1 (List.cons.inj hT).1
        have hrec := pElems_encElems (.cons x xs2) body rest f2 (by intro h2; cases h2)
          hU hD hee (by
            have hl2 : ('[' :: body ++ [']']).length = body.length + 2 := by simp
            omega)
        rw [show ('[' :: body ++ [']']) ++ rest = '[' :: (body ++ ']' :: rest) from by simp]
        unfold pVal
        rw [if_neg (by decide), if_neg (by decide), if_neg (by decide), if_neg (by decide),
          if_pos rfl, if_neg hTake, hrec]
  | obj fs =>
    rw [encVal] at he
    cases hef : encFields fs with
    | none => rw [hef] at he; cases he
    | some parts =>
      rw [hef] at he
      injection he with h
      subst h
      cases parts with
      | nil =>
        have hfs := encFields_nil_of fs hU hef
        subst hfs
        rfl
      | cons p parts2 =>
        have hfs : fs ≠ JSFields.nil := by
          intro h2
          subst h2
          cases hef
        obtain ⟨k, v2, fs3, rfl⟩ : ∃ k v2 fs3, fs = JSFields.cons k v2 fs3 := by
          cases fs with
          | nil => exact absurd rfl hfs
          | cons k v2 fs3 => exact ⟨k, v2, fs3, rfl⟩
        obtain ⟨sv, parts3, _hsv, _hparts3, hp⟩ :=
          encFields_cons_shape k v2 fs3 (p :: parts2) hU hef
        have hpt : p = '"' :: (escapeList k.data ++ ['"'] ++ ':' :: sv) := by
          have h2 := (List.cons.inj hp).1
          rw [h2, encStrChars]
          simp
        obtain ⟨t2, hjc⟩ := joinComma_cons p parts2
        have hTake : ¬ (joinComma (p :: parts2) ++ '}' :: rest).take 1 = ['}'] := by
          rw [hjc, hpt, List.cons_append, List.cons_append]
          intro hT
          rw [List.take_succ_cons, List.take_zero] at hT
          exact absurd (List.cons.inj hT).1 (by decide)
        have hrec := pFields_encFields (JSFields.cons k v2 fs3) (p :: parts2) rest f2
          (by intro h2; cases h2) hU hD hef (by
            have hl2 : ('{' :: joinComma (p :: parts2) ++ ['}']).length =
              (joinComma (p :: parts2)).length + 2 := by simp
            omega)
        rw [show ('{' :: joinComma (p :: parts2) ++ ['}']) ++ rest =
          '{' :: (joinComma (p :: parts2) ++ '}' :: rest) from by simp]
        unfold pVal
        rw [if_neg (by decide), if_neg (by decide), if_neg (by decide), if_neg (by decide),
          if_neg (by decide), if_pos rfl, if_neg hTake, hrec]

/-- Round-trip for array interiors: the comma-joined encoded elements,
followed by the closing bracket and any tail, parse back to the element
list. -/
theorem pElems_encElems (xs : JSList) :
    ∀ (s rest : List Char) (f : Nat), xs ≠ JSList.nil → noUndefL xs = true →
      noDblL xs = true → encElems xs = some s → s.length + 1 < f →
      pElems f (s ++ ']' :: rest) = some (xs, rest) := by
  intro s rest f hne hU hD he hlen
  obtain ⟨f2, rfl⟩ : ∃ f2, f = f2 + 1 := ⟨f - 1, by omega⟩
  cases xs with
  | nil => exact absurd rfl hne
  | cons x xs2 =>
    rw [noUndefL, Bool.and_eq_true] at hU
    rw [noDblL, Bool.and_eq_true] at hD
    have hnu := isUndef_false_of_noUndef x hU.1
    cases xs2 with
    | nil =>
      rw [encElems, if_neg (by rw [hnu]; exact Bool.false_ne_true)] at he
      unfold pElems
      rw [pVal_encVal x s (']' :: rest) f2 hU.1 hD.1 he (by omega) rfl]
      rfl
    | cons y ys =>
      rw [encElems, if_neg (by rw [hnu]; exact Bool.false_ne_true)] at he
      cases ha : encVal x with
      | none => rw [ha] at he; cases he
      | some a =>
        rw [ha] at he
        cases hb : encElems (.cons y ys) with
        | none => rw [hb] at he; cases he
        | some b =>
          rw [hb] at he
          injection he with h
          subst h
          have hlab : (a ++ ',' :: b).length = a.length + b.length + 1 := by
            rw [List.length_append, List.length_cons]
            omega
          have hrec := pElems_encElems (.cons y ys) b rest f2 (by intro h2; cases h2)
            hU.2 hD.2 hb (by omega)
          rw [show (a ++ ',' :: b) ++ ']' :: rest =
            a ++ ',' :: (b ++ ']' :: rest) from by simp]
          unfold pElems
          rw [pVal_encVal x a (',' :: (b ++ ']' :: rest)) f2 hU.1 hD.1 ha (by omega) rfl]
          show (match pElems f2 (b ++ ']' :: rest) with
            | some xr => some (JSList.cons x xr.1, xr.2)
            | none => none) = some (JSList.cons x (JSList.cons y ys), rest)
          rw [hrec]

/-- Round-trip for object interiors: the comma-joined encoded members,
followed by the closing brace and any tail, parse back to the field list. -/
theorem pFields_encFields (fs : JSFields) :
    ∀ (parts : List (List Char)) (rest : List Char) (f : Nat), fs ≠ JSFields.nil →
      noUndefF fs = true → noDblF fs = true → encFields fs = some parts →
      (joinComma parts).length + 1 < f →
      pFields f (joinComma parts ++ '}' :: rest) = some (fs, rest) := by
  intro parts rest f hne hU hD he hlen
  obtain ⟨f2, rfl⟩ : ∃ f2, f = f2 + 1 := ⟨f - 1, by omega⟩
  cases fs with
  | nil => exact absurd rfl hne
  | cons k v fs2 =>
    obtain ⟨sv, parts2, hsv, hparts2, rfl⟩ := encFields_cons_shape k v fs2 parts hU he
    rw [noUndefF, Bool.and_eq_true] at hU
    rw [noDblF, Bool.and_eq_true] at hD
    have henck : (encStrChars k).length = (escapeList k.data).length + 2 := by
      rw [encStrChars]
      simp
    cases parts2 with
    | nil =>
      have hfs2 := encFields_nil_of fs2 hU.2 hparts2
      subst hfs2
      have hjc : joinComma [encStrChars k ++ ':' :: sv] = encStrChars k ++ ':' :: sv := rfl
      rw [hjc] at hlen
      have hlp : (encStrChars k ++ ':' :: sv).length =
        (escapeList k.data).length + sv.length + 3 := by
          simp [henck]
          omega
      have hv := pVal_encVal v sv ('}' :: rest) f2 hU.1 hD.1 hsv (by omega) rfl
      rw [hjc]
      rw [show (encStrChars k ++ ':' :: sv) ++ '}' :: rest =
        '"' :: (escapeList k.data ++ '"' :: (':' :: (sv ++ '}' :: rest))) from by
          rw [encStrChars]
          simp]
      show (match pStringChars (escapeList k.data ++ '"' :: (':' :: (sv ++ '}' :: rest))) with
        | some kr =>
          if kr.2.take 1 = [':'] then
            match pVal f2 (kr.2.drop 1) with
            | some vr =>
              if vr.2.take 1 = [','] then
                match pFields f2 (vr.2.drop 1) with
                | some fr => some (JSFields.cons ⟨kr.1⟩ vr.1 fr.1, fr.2)
                | none => none
              else if vr.2.take 1 = ['}'] then
                some (JSFields.cons ⟨kr.1⟩ vr.1 JSFields.nil, vr.2.drop 1)
              else none
            | none => none
          else none
        | none => none) = some (JSFields.cons k v JSFields.nil, rest)
      rw [pStringChars_enc k.data (':' :: (sv ++ '}' :: rest))]
      show (match pVal f2 (sv ++ '}' :: rest) with
        | some vr =>
          if vr.2.take 1 = [','] then
            match pFields f2 (vr.2.drop 1) with
            | some fr => some (JSFields.cons k vr.1 fr.1, fr.2)
            | none => none
          else if vr.2.take 1 = ['}'] then
            some (JSFields.cons k vr.1 JSFields.nil, vr.2.drop 1)
          else none
        | none => none) = some (JSFields.cons k v JSFields.nil, rest)
      rw [hv]
      rfl
    | cons q qs =>
      have hfs2 : fs2 ≠ JSFields.nil := by
        intro h2
        subst h2
        rw [show encFields JSFields.nil = some [] from rfl] at hparts2
        injection hparts2 with h3
        cases h3
      have hjc : joinComma ((encStrChars k ++ ':' :: sv) :: q :: qs) =
        (encStrChars k ++ ':' :: sv) ++ ',' :: joinComma (q :: qs) := rfl
      rw [hjc] at hlen
      have hlp : ((encStrChars k ++ ':' :: sv) ++ ',' :: joinComma (q :: qs)).length =
        (escapeList k.data).length + sv.length + (joinComma (q :: qs)).length + 4 := by
          simp [henck]
          omega
      have hv := pVal_encVal v sv (',' :: (joinComma (q :: qs) ++ '}' :: rest)) f2
        hU.1 hD.1 hsv (by omega) rfl
      have hrec := pFields_encFields fs2 (q :: qs) rest f2 hfs2 hU.2 hD.2 hparts2 (by omega)
      rw [hjc]
      rw [show ((encStrChars k ++ ':' :: sv) ++ ',' :: joinComma (q :: qs)) ++ '}' :: rest =
        '"' :: (escapeList k.data ++ '"' ::
          (':' :: (sv ++ ',' :: (joinComma (q :: qs) ++ '}' :: rest)))) from by
          rw [encStrChars]
          simp]
      show (match pStringChars (escapeList k.data ++ '"' ::
          (':' :: (sv ++ ',' :: (joinComma (q :: qs) ++ '}' :: rest)))) with
        | some kr =>
          if kr.2.take 1 = [':'] then
            match pVal f2 (kr.2.drop 1) with
            | some vr =>
              if vr.2.take 1 = [','] then
                match pFields f2 (vr.2.drop 1) with
                | some fr => some (JSFields.cons ⟨kr.1⟩ vr.1 fr.1, fr.2)
                | none => none
              else if vr.2.take 1 = ['}'] then
                some (JSFields.cons ⟨kr.1⟩ vr.1 JSFields.nil, vr.2.drop 1)
              else none
            | none => none
          else none
        | none => none) = some (JSFields.cons k v fs2, rest)
      rw [pStringChars_enc k.data (':' :: (sv ++ ',' :: (joinComma (q :: qs) ++ '}' :: rest)))]
      show (match pVal f2 (sv ++ ',' :: (joinComma (q :: qs) ++ '}' :: rest)) with
        | some vr =>
          if vr.2.take 1 = [','] then
            match pFields f2 (vr.2.drop 1) with
            | some fr => some (JSFields.cons k vr.1 fr.1, fr.2)
            | none => none
          else if vr.2.take 1 = ['}'] then
            some (JSFields.cons k vr.1 JSFields.nil, vr.2.drop 1)
          else none
        | none => none) = some (JSFields.cons k v fs2, rest)
      rw [hv]
      show (match pFields f2 (joinComma (q :: qs) ++ '}' :: rest) with
        | some fr => some (JSFields.cons k v fr.1, fr.2)
        | none => none) = some (JSFields.cons k v fs2, rest)
      rw [hrec]

end

/-! ## Claim theorems -/

/-- C1.  For a pending request with expected discriminant `D` and timeout
`T` (defaulting to 60000 ms when no timeout argument is supplied, as in
every facade call), run against a chronologically ordered inbound schedule:
if some event before the deadline parses with `action = D`, the promise
resolves with the first such event's parsed payload; otherwise it rejects
with the timeout error, whose message contains `D` and the duration
(printed as `T / 1000` seconds). -/
theorem spec_C1 (D : String) (T : Nat) (events : List (Nat × String))
    (hc : chron events = true) :
    (∀ v, firstMatch D T events = some v →
        waitForResponse D events T = Except.ok v)
  ∧ (firstMatch D T events = none →
        waitForResponse D events T = Except.error (timeoutMessage T D))
  ∧ hasSubstr (timeoutMessage T D) D = true
  ∧ hasSubstr (timeoutMessage T D) (secondsRepr T ++ "s") = true
  ∧ waitForResponse D events = waitForResponse D events 60000 := by
  have h := run_waiting events (initPending D T) rfl rfl hc
  rw [show (initPending D T).expected = D from rfl,
    show (initPending D T).timeout = T from rfl] at h
  refine ⟨?_, ?_, timeoutMessage_contains_action T D,
    timeoutMessage_contains_duration T D, rfl⟩
  · intro v hm
    rw [hm] at h
    unfold waitForResponse outcome
    rw [h]
  · intro hm
    rw [hm] at h
    unfold waitForResponse outcome
    rw [h]

/-- Witness for C1 at a concrete schedule: a matching event at t = 5 ms
resolves, and on the empty schedule the call times out with the documented
message. -/
theorem spec_C1_wit :
    chron [(5, "\x7b\"action\":\"DEPOSIT_RESPONSE\"\x7d")] = true
  ∧ waitForResponse "DEPOSIT_RESPONSE" [(5, "\x7b\"action\":\"DEPOSIT_RESPONSE\"\x7d")] 60000 =
      Except.ok (JSValue.obj (.cons "action" (.str "DEPOSIT_RESPONSE") .nil))
  ∧ waitForResponse "AUTHENTICATE_RESPONSE" [] 60000 =
      Except.error "Timeout, 60s passed waiting for AUTHENTICATE_RESPONSE response." := by
  refine ⟨rfl, ?_, ?_⟩
  · exact (spec_C1 "DEPOSIT_RESPONSE" 60000 [(5, "\x7b\"action\":\"DEPOSIT_RESPONSE\"\x7d")] rfl).1
      (JSValue.obj (.cons "action" (.str "DEPOSIT_RESPONSE") .nil)) rfl
  · have h := ((spec_C1 "AUTHENTICATE_RESPONSE" 60000 [] rfl).2.1) rfl
    rw [h]
    rfl

/-- C2.  Any facade invoked while `isWebView` is false fails immediately
with a message containing that facade's action name: the promise rejects,
nothing is posted to the bridge, no listener is registered and no timer is
started. -/
theorem spec_C2 (e : Env) (he : isWebView e = false)
    (d : DepositData) (wd : WithdrawData) (cd : CallSmartContractData)
    (ad : AuthenticateData) (events : List (Nat × String)) :
    (deposit e d events =
       { result := Except.error ("DEPOSIT" ++ " can only be used inside a React Native WebView")
         posted := none
         subscribed := false
         timerStarted := false }
     ∧ hasSubstr ("DEPOSIT" ++ " can only be used inside a React Native WebView") "DEPOSIT" = true)
  ∧ (withdraw e wd events =
       { result := Except.error ("WITHDRAW" ++ " can only be used inside a React Native WebView")
         posted := none
         subscribed := false
         timerStarted := false }
     ∧ hasSubstr ("WITHDRAW" ++ " can only be used inside a React Native WebView") "WITHDRAW" = true)
  ∧ (callSmartContract e cd events =
       { result := Except.error ("CALL_SMART_CONTRACT" ++ " can only be used inside a React Native WebView")
         posted := none
         subscribed := false
         timerStarted := false }
     ∧ hasSubstr ("CALL_SMART_CONTRACT" ++ " can only be used inside a React Native WebView") "CALL_SMART_CONTRACT" = true)
  ∧ (authenticate e ad events =
       { result := Except.error ("AUTHENTICATE" ++ " can only be used inside a React Native WebView")
         posted := none
         subscribed := false
         timerStarted := false }
     ∧ hasSubstr ("AUTHENTICATE" ++ " can only be used inside a React Native WebView") "AUTHENTICATE" = true) := by
  have hmsg : ∀ (m : WVMessage) (expected : String),
      runFacade e m expected events =
        { result := Except.error (m.action ++ " can only be used inside a React Native WebView")
          posted := none
          subscribed := false
          timerStarted := false } := by
    intro m expected
    unfold runFacade sendMessageToApp
    rw [he]
    rfl
  have hsub : ∀ a : String,
      hasSubstr (a ++ " can only be used inside a React Native WebView") a = true := by
    intro a
    have h : a ++ " can only be used inside a React Native WebView" =
        "" ++ a ++ " can only be used inside a React Native WebView" := by
      apply String.ext
      simp [String.data_append]
    rw [h]
    exact hasSubstr_parts "" a " can only be used inside a React Native WebView"
  exact ⟨⟨hmsg (depositMessage d) "DEPOSIT_RESPONSE", hsub "DEPOSIT"⟩,
    ⟨hmsg (withdrawMessage wd) "WITHDRAW_RESPONSE", hsub "WITHDRAW"⟩,
    ⟨hmsg (callSmartContractMessage cd) "CALL_SMART_CONTRACT_RESPONSE", hsub "CALL_SMART_CONTRACT"⟩,
    ⟨hmsg (authenticateMessage ad) "AUTHENTICATE_RESPONSE", hsub "AUTHENTICATE"⟩⟩

/-- Witness for C2: a concrete non-hosted environment (no bridge object,
plain user agent, no marker class) rejects a concrete deposit call without
posting, subscribing or starting a timer. -/
theorem spec_C2_wit :
    isWebView ⟨some ⟨false, "Mozilla/5.0", []⟩⟩ = false
  ∧ deposit ⟨some ⟨false, "Mozilla/5.0", []⟩⟩ ⟨"100", "USDC", some 137⟩ [] =
      { result := Except.error ("DEPOSIT" ++ " can only be used inside a React Native WebView")
        posted := none
        subscribed := false
        timerStarted := false } := by
  refine ⟨rfl, ?_⟩
  exact ((spec_C2 ⟨some ⟨false, "Mozilla/5.0", []⟩⟩ rfl ⟨"100", "USDC", some 137⟩
    ⟨"50", "ETH"⟩ ⟨.null, .null, .null⟩ ⟨none, none⟩ []).1).1

/-- C3.  Settlement is exclusive and total, and cleanup is unconditional:
a matching event resolves, clearing the timer and removing the listener; a
timeout rejects, removing the listener; every run settles with both
released; and once a run has finished, delivering any further events
changes nothing (the listener and timer are inert). -/
theorem spec_C3 (D : String) (T : Nat) :
    (∀ p raw v, p.listenerActive = true → jsonParse raw = some v →
        actionMatches v p.expected = true →
        (handleMessage p raw).settled = some (Except.ok v)
        ∧ (handleMessage p raw).timerActive = false
        ∧ (handleMessage p raw).listenerActive = false)
  ∧ (∀ p, p.timerActive = true →
        (fireTimeout p).settled = some (Except.error (timeoutMessage p.timeout p.expected))
        ∧ (fireTimeout p).listenerActive = false
        ∧ (fireTimeout p).timerActive = false)
  ∧ (∀ events, ((run (initPending D T) events).settled).isSome = true
        ∧ (run (initPending D T) events).listenerActive = false
        ∧ (run (initPending D T) events).timerActive = false)
  ∧ (∀ events events',
        run (run (initPending D T) events) events' = run (initPending D T) events)
  ∧ (∀ p raw, p.listenerActive = false → handleMessage p raw = p)
  ∧ (∀ p, p.timerActive = false → fireTimeout p = p) := by
  refine ⟨?_, ?_, ?_, ?_, handleMessage_inactive, fireTimeout_inactive⟩
  · intro p raw v hl hv ha
    rw [handleMessage_match p raw v hl hv ha]
    exact ⟨rfl, rfl, rfl⟩
  · intro p ht
    rw [fireTimeout_active p ht]
    exact ⟨rfl, rfl, rfl⟩
  · intro events
    have h := run_done events (initPending D T) (Or.inl ⟨rfl, rfl⟩)
    exact ⟨h.2.2, h.1, h.2.1⟩
  · intro events events'
    have h := run_done events (initPending D T) (Or.inl ⟨rfl, rfl⟩)
    exact run_frozen events' _ h.1 h.2.1

/-- Witness for C3 at concrete inputs: a matching resolution releases
both resources; a concrete run settles; replaying a matching event after
settlement changes nothing. -/
theorem spec_C3_wit :
    (handleMessage (initPending "A" 60000) "\x7b\"action\":\"A\"\x7d").settled =
      some (Except.ok (JSValue.obj (.cons "action" (.str "A") .nil)))
  ∧ ((run (initPending "A" 60000) [(1, "\x7b\"action\":\"A\"\x7d")]).settled).isSome = true
  ∧ run (run (initPending "A" 60000) [(1, "\x7b\"action\":\"A\"\x7d")])
      [(2, "\x7b\"action\":\"A\"\x7d")] =
      run (initPending "A" 60000) [(1, "\x7b\"action\":\"A\"\x7d")] := by
  refine ⟨?_, ?_, ?_⟩
  · exact ((spec_C3 "A" 60000).1 (initPending "A" 60000) "\x7b\"action\":\"A\"\x7d"
      (JSValue.obj (.cons "action" (.str "A") .nil)) rfl rfl rfl).1
  · exact ((spec_C3 "A" 60000).2.2.1 [(1, "\x7b\"action\":\"A\"\x7d")]).1
  · exact (spec_C3 "A" 60000).2.2.2.1 [(1, "\x7b\"action\":\"A\"\x7d")] [(2, "\x7b\"action\":\"A\"\x7d")]

/-- C4.  An inbound event whose text does not parse, or parses with a
different `action` discriminant, leaves a pending request completely
unchanged: not settled by it, listener still registered, timer still
pending. -/
theorem spec_C4 (p : Pending) (raw : String)
    (h : jsonParse raw = none ∨
      ∀ v, jsonParse raw = some v → actionMatches v p.expected = false) :
    handleMessage p raw = p
  ∧ (handleMessage p raw).settled = p.settled
  ∧ (handleMessage p raw).listenerActive = p.listenerActive
  ∧ (handleMessage p raw).timerActive = p.timerActive := by
  have hm := handleMessage_nomatch p raw h
  exact ⟨hm, by rw [hm], by rw [hm], by rw [hm]⟩

/-- Witness for C4: malformed text and a mismatched discriminant each leave
a concrete pending request untouched. -/
theorem spec_C4_wit :
    handleMessage (initPending "DEPOSIT_RESPONSE" 60000) "not json\x7b" =
      initPending "DEPOSIT_RESPONSE" 60000
  ∧ handleMessage (initPending "DEPOSIT_RESPONSE" 60000) "\x7b\"action\":\"OTHER\"\x7d" =
      initPending "DEPOSIT_RESPONSE" 60000 := by
  refine ⟨?_, ?_⟩
  · exact (spec_C4 (initPending "DEPOSIT_RESPONSE" 60000) "not json\x7b" (Or.inl rfl)).1
  · exact (spec_C4 (initPending "DEPOSIT_RESPONSE" 60000) "\x7b\"action\":\"OTHER\"\x7d"
      (Or.inr fun v hv => by cases hv; rfl)).1

/-- C5.  An inbound envelope whose `action` equals the expected
discriminant resolves the pending request's promise with the parsed value,
whatever its `result` field holds (in particular `FAILED` and `CANCELLED`):
the promise never rejects because of a domain-level failure. -/
theorem spec_C5 (p : Pending) (raw : String) (v res : JSValue)
    (hl : p.listenerActive = true) (hv : jsonParse raw = some v)
    (ha : actionMatches v p.expected = true)
    (_hres : getField v "result" = some res) :
    (handleMessage p raw).settled = some (Except.ok v)
  ∧ ∀ msg, (handleMessage p raw).settled ≠ some (Except.error msg) := by
  rw [handleMessage_match p raw v hl hv ha]
  exact ⟨rfl, fun msg h => by cases h⟩

/-- Witness for C5: a concrete `FAILED` envelope resolves (does not
reject) a matching pending request. -/
theorem spec_C5_wit :
    (handleMessage (initPending "DEPOSIT_RESPONSE" 60000)
      "\x7b\"action\":\"DEPOSIT_RESPONSE\",\"result\":\"FAILED\",\"error\":\x7b\"message\":\"no\",\"code\":\"1\"\x7d\x7d").settled =
      some (Except.ok (JSValue.obj (.cons "action" (.str "DEPOSIT_RESPONSE")
        (.cons "result" (.str "FAILED")
        (.cons "error" (.obj (.cons "message" (.str "no") (.cons "code" (.str "1") .nil))) .nil))))) := by
  exact (spec_C5 (initPending "DEPOSIT_RESPONSE" 60000)
    "\x7b\"action\":\"DEPOSIT_RESPONSE\",\"result\":\"FAILED\",\"error\":\x7b\"message\":\"no\",\"code\":\"1\"\x7d\x7d"
    (JSValue.obj (.cons "action" (.str "DEPOSIT_RESPONSE")
      (.cons "result" (.str "FAILED")
      (.cons "error" (.obj (.cons "message" (.str "no") (.cons "code" (.str "1") .nil))) .nil))))
    (.str "FAILED") rfl rfl rfl rfl).1

/-- C8.  End-to-end: a hosted deposit of 100 USDC on chain 137 posts
exactly the documented JSON text, and the documented inbound
DEPOSIT_RESPONSE resolves the promise with exactly its parsed payload. -/
theorem spec_C8 :
    (deposit ⟨some ⟨true, "Mozilla/5.0", []⟩⟩ ⟨"100", "USDC", some 137⟩
      [(100, "\x7b\"action\":\"DEPOSIT_RESPONSE\",\"result\":\"SUCCESS\",\"data\":\x7b\"txHash\":\"0xabc\"\x7d\x7d")]).posted
      = some "\x7b\"action\":\"DEPOSIT\",\"data\":\x7b\"amount\":\"100\",\"tokenName\":\"USDC\",\"chainId\":137\x7d\x7d"
  ∧ (deposit ⟨some ⟨true, "Mozilla/5.0", []⟩⟩ ⟨"100", "USDC", some 137⟩
      [(100, "\x7b\"action\":\"DEPOSIT_RESPONSE\",\"result\":\"SUCCESS\",\"data\":\x7b\"txHash\":\"0xabc\"\x7d\x7d")]).result
      = Except.ok (JSValue.obj (.cons "action" (.str "DEPOSIT_RESPONSE")
          (.cons "result" (.str "SUCCESS")
          (.cons "data" (.obj (.cons "txHash" (.str "0xabc") .nil)) .nil)))) :=
  ⟨rfl, rfl⟩

/-- C9.  The environment probe is a total boolean function of the three
host markers: true exactly when the global scope exists and the bridge
object is present, or the user agent contains the marker substring, or the
root element carries the marker class; and absence of the global scope
yields false rather than an error. -/
theorem spec_C9 (e : Env) :
    (isWebView e = true ↔ ∃ w, e.window = some w ∧
      (w.reactNativeWebView = true ∨
        hasSubstr w.userAgent "ReactNativeWebView" = true ∨
        w.docClasses.contains "ReactNativeWebView" = true))
  ∧ (e.window = none → isWebView e = false) := by
  obtain ⟨win⟩ := e
  cases win with
  | none =>
    refine ⟨?_, fun _ => by simp [isWebView]⟩
    simp [isWebView]
  | some w =>
    refine ⟨?_, fun h => by simp at h⟩
    constructor
    · intro h
      refine ⟨w, rfl, ?_⟩
      simp only [isWebView, Bool.or_eq_true] at h
      rcases h with (h | h) | h
      · exact Or.inl h
      · exact Or.inr (Or.inl h)
      · exact Or.inr (Or.inr h)
    · rintro ⟨w2, hw2, h⟩
      cases Option.some.inj hw2
      simp only [isWebView, Bool.or_eq_true]
      rcases h with h | h | h
      · exact Or.inl (Or.inl h)
      · exact Or.inl (Or.inr h)
      · exact Or.inr h

/-- Witness for C9: concrete environments (absent scope; bridge marker;
user-agent marker; no markers) evaluate as the claim states. -/
theorem spec_C9_wit :
    isWebView ⟨none⟩ = false
  ∧ isWebView ⟨some ⟨true, "", []⟩⟩ = true
  ∧ isWebView ⟨some ⟨false, "Mozilla ReactNativeWebView/1.0", []⟩⟩ = true
  ∧ isWebView ⟨some ⟨false, "Mozilla/5.0", []⟩⟩ = false := by
  refine ⟨(spec_C9 ⟨none⟩).2 rfl, ?_, ?_, ?_⟩
  · exact (spec_C9 ⟨some ⟨true, "", []⟩⟩).1.mpr ⟨⟨true, "", []⟩, rfl, Or.inl rfl⟩
  · exact (spec_C9 ⟨some ⟨false, "Mozilla ReactNativeWebView/1.0", []⟩⟩).1.mpr
      ⟨⟨false, "Mozilla ReactNativeWebView/1.0", []⟩, rfl, Or.inr (Or.inl rfl)⟩
  · rfl

/-- C10.  When detection succeeds only via the user-agent or
document-class marker and the bridge object is absent, dispatch is silently
skipped: the call reports no error, posts nothing, yet still subscribes
and starts its timer, so its promise can only settle by timeout or by an
inbound event carrying the matching discriminant. -/
theorem spec_C10 (w : Win) (m : WVMessage) (expected : String)
    (events : List (Nat × String))
    (hb : w.reactNativeWebView = false)
    (hm : hasSubstr w.userAgent "ReactNativeWebView" = true ∨
      w.docClasses.contains "ReactNativeWebView" = true)
    (hc : chron events = true) :
    isWebView ⟨some w⟩ = true
  ∧ sendMessageToApp ⟨some w⟩ m = Except.ok none
  ∧ (runFacade ⟨some w⟩ m expected events).posted = none
  ∧ (runFacade ⟨some w⟩ m expected events).subscribed = true
  ∧ (runFacade ⟨some w⟩ m expected events).timerStarted = true
  ∧ ((runFacade ⟨some w⟩ m expected events).result =
        Except.error (timeoutMessage 60000 expected)
      ∨ ∃ v, (runFacade ⟨some w⟩ m expected events).result = Except.ok v
          ∧ actionMatches v expected = true) := by
  have hweb : isWebView ⟨some w⟩ = true := by
    simp only [isWebView, Bool.or_eq_true]
    rcases hm with h | h
    · exact Or.inl (Or.inr h)
    · exact Or.inr h
  have hsend : sendMessageToApp ⟨some w⟩ m = Except.ok none := by
    unfold sendMessageToApp
    rw [hweb]
    simp [hb]
  have hrf : runFacade ⟨some w⟩ m expected events =
      { result := waitForResponse expected events
        posted := none
        subscribed := true
        timerStarted := true } := by
    unfold runFacade
    rw [hsend]
  have hwr := run_waiting events (initPending expected 60000) rfl rfl hc
  rw [show (initPending expected 60000).expected = expected from rfl,
    show (initPending expected 60000).timeout = 60000 from rfl] at hwr
  refine ⟨hweb, hsend, by rw [hrf], by rw [hrf], by rw [hrf], ?_⟩
  rw [hrf]
  cases hfm : firstMatch expected 60000 events with
  | none =>
    left
    rw [hfm] at hwr
    show waitForResponse expected events = _
    unfold waitForResponse outcome
    rw [hwr]
  | some v =>
    right
    refine ⟨v, ?_, firstMatch_some expected 60000 events v hfm⟩
    rw [hfm] at hwr
    show waitForResponse expected events = _
    unfold waitForResponse outcome
    rw [hwr]

/-- Witness for C10: with only the user-agent marker and no bridge, a
concrete deposit-shaped message posts nothing and times out. -/
theorem spec_C10_wit :
    sendMessageToApp ⟨some ⟨false, "ReactNativeWebView", []⟩⟩
      { action := "DEPOSIT", data := JSValue.null } = Except.ok none
  ∧ (runFacade ⟨some ⟨false, "ReactNativeWebView", []⟩⟩
      { action := "DEPOSIT", data := JSValue.null } "DEPOSIT_RESPONSE" []).posted = none := by
  have h := spec_C10 ⟨false, "ReactNativeWebView", []⟩
    { action := "DEPOSIT", data := JSValue.null } "DEPOSIT_RESPONSE" [] rfl (Or.inl rfl) rfl
  exact ⟨h.2.1, h.2.2.1⟩

/-- C6.  Serialization rewrites every `BigInt` — of any magnitude — into
its exact decimal string before structural encoding (so the rewritten tree
holds no `BigInt`, and the decimal string denotes exactly the original
integer), while `null`, `undefined`, strings, booleans, numbers (integer or
floating point) and empty arrays/objects pass through the rewrite
unchanged; and parsing the text `stringifyMessage` emits recovers exactly
the rewritten tree — a `BigInt` therefore always comes back as its exact
decimal string, never as a lossy number. -/
theorem spec_C6 :
    (∀ i : Int, convertToString (.bigint i) = .str (intDecimal i)
      ∧ decodeDecimal (intDecimal i) = some i)
  ∧ (∀ v : JSValue, noBig (convertToString v) = true)
  ∧ convertToString .null = .null
  ∧ convertToString .undef = .undef
  ∧ (∀ s, convertToString (.str s) = .str s)
  ∧ (∀ b, convertToString (.bool b) = .bool b)
  ∧ (∀ n, convertToString (.num n) = .num n)
  ∧ (∀ lit, convertToString (.dbl lit) = .dbl lit)
  ∧ convertToString (.arr .nil) = .arr .nil
  ∧ convertToString (.obj .nil) = .obj .nil
  ∧ (∀ v : JSValue, noUndef v = true → noDbl v = true →
      ∃ s, stringifyMessage v = some s ∧ jsonParse s = some (convertToString v)) := by
  refine ⟨fun i => ⟨rfl, decodeDecimal_intDecimal i⟩, noBig_convert, rfl, rfl,
    fun s => rfl, fun b => rfl, fun n => rfl, fun lit => rfl, rfl, rfl, ?_⟩
  intro v hU hD
  have hU2 := noUndef_convert v hU
  have hD2 := noDbl_convert v hD
  have hB2 := noBig_convert v
  obtain ⟨cs, hcs⟩ := encVal_total (convertToString v) hU2 hB2
  refine ⟨⟨cs⟩, ?_, ?_⟩
  · unfold stringifyMessage
    rw [hcs]
  · have hp := pVal_encVal (convertToString v) cs [] (cs.length + 1) hU2 hD2 hcs
      (by omega) rfl
    rw [List.append_nil] at hp
    unfold jsonParse
    rw [show (String.mk cs).length = cs.length from rfl]
    rw [show (String.mk cs).data = cs from rfl]
    rw [hp]

/-- Witness for C6 at a concrete value: an object holding the 101-bit
integer 2^100 serializes and parses back to the object holding its exact
31-digit decimal string. -/
theorem spec_C6_wit :
    noUndef (JSValue.obj (.cons "big" (.bigint (2 ^ 100)) .nil)) = true
  ∧ noDbl (JSValue.obj (.cons "big" (.bigint (2 ^ 100)) .nil)) = true
  ∧ ∃ s, stringifyMessage (JSValue.obj (.cons "big" (.bigint (2 ^ 100)) .nil)) = some s
      ∧ jsonParse s =
          some (convertToString (JSValue.obj (.cons "big" (.bigint (2 ^ 100)) .nil))) :=
  ⟨rfl, rfl, spec_C6.2.2.2.2.2.2.2.2.2.2
    (JSValue.obj (.cons "big" (.bigint (2 ^ 100)) .nil)) rfl rfl⟩

/-- C7 counterexample.  The runtime validates nothing but the `action`
field: the inbound text `{"action":"DEPOSIT_RESPONSE","result":"SUCCESS"}`
— whose `result` is `SUCCESS` but which carries no `data` field — settles a
pending deposit request by resolving its promise with that payload,
violating the claimed invariant that `data` is present iff
`result = SUCCESS` on every envelope a facade's future resolves with. -/
theorem spec_C7_cex :
    (handleMessage (initPending "DEPOSIT_RESPONSE" 60000)
      "\x7b\"action\":\"DEPOSIT_RESPONSE\",\"result\":\"SUCCESS\"\x7d").settled =
      some (Except.ok (JSValue.obj (.cons "action" (.str "DEPOSIT_RESPONSE")
        (.cons "result" (.str "SUCCESS") .nil))))
  ∧ getField (JSValue.obj (.cons "action" (.str "DEPOSIT_RESPONSE")
      (.cons "result" (.str "SUCCESS") .nil))) "result" = some (.str "SUCCESS")
  ∧ getField (JSValue.obj (.cons "action" (.str "DEPOSIT_RESPONSE")
      (.cons "result" (.str "SUCCESS") .nil))) "data" = none :=
  ⟨rfl, rfl, rfl⟩

/-- C7 (amended).  The declared response types satisfy the three-way
variant invariant — `data` present iff `SUCCESS`, `error` present iff
`FAILED`, neither iff `CANCELLED` — but the runtime does not enforce it: a
pending request's promise resolves with a parsed inbound value exactly when
that value's `action` equals the expected discriminant, with no validation
of `result`, `data` or `error`. -/
theorem spec_C7 :
    (∀ r : DepositResponse,
      ((r.dataOf).isSome = true ↔ r.resultOf = .success)
      ∧ ((r.errorOf).isSome = true ↔ r.resultOf = .failed)
      ∧ ((r.dataOf = none ∧ r.errorOf = none) ↔ r.resultOf = .cancelled))
  ∧ (∀ (p : Pending) (raw : String) (v : JSValue),
      p.settled = none → p.listenerActive = true → jsonParse raw = some v →
      ((handleMessage p raw).settled = some (Except.ok v) ↔
        actionMatches v p.expected = true)) := by
  constructor
  · intro r
    cases r with
    | success h => simp [DepositResponse.dataOf, DepositResponse.errorOf, DepositResponse.resultOf]
    | failed e => simp [DepositResponse.dataOf, DepositResponse.errorOf, DepositResponse.resultOf]
    | cancelled => simp [DepositResponse.dataOf, DepositResponse.errorOf, DepositResponse.resultOf]
  · intro p raw v hs hl hv
    constructor
    · intro h
      by_cases ha : actionMatches v p.expected = true
      · exact ha
      · rw [handleMessage_nomatch_of_wrong p raw v hv ha, hs] at h
        cases h
    · intro ha
      rw [handleMessage_match p raw v hl hv ha]

/-- Witness for C7 (amended) at concrete inputs: a matching envelope
resolves, and the declared-type invariant holds on a concrete `CANCELLED`
envelope. -/
theorem spec_C7_wit :
    (handleMessage (initPending "WITHDRAW_RESPONSE" 60000)
      "\x7b\"action\":\"WITHDRAW_RESPONSE\",\"result\":\"CANCELLED\"\x7d").settled =
      some (Except.ok (JSValue.obj (.cons "action" (.str "WITHDRAW_RESPONSE")
        (.cons "result" (.str "CANCELLED") .nil))))
  ∧ (DepositResponse.cancelled.dataOf = none ∧ DepositResponse.cancelled.errorOf = none) := by
  constructor
  · exact (spec_C7.2 (initPending "WITHDRAW_RESPONSE" 60000)
      "\x7b\"action\":\"WITHDRAW_RESPONSE\",\"result\":\"CANCELLED\"\x7d"
      (JSValue.obj (.cons "action" (.str "WITHDRAW_RESPONSE")
        (.cons "result" (.str "CANCELLED") .nil))) rfl rfl rfl).mpr rfl
  · exact (spec_C7.1 DepositResponse.cancelled).2.2.mpr rfl

end MiniAppSdk
